import Mathlib

/-!
Shallow embedding of the jest-axios mock-server core (src/index.js, src/models.js,
src/errors.js) for checking the natural-language specification against the code.

JavaScript records are modelled as insertion-ordered association lists from
field names to values.  In-place object mutation and object identity matter in
this code (records are shared between a Collection's `data`, its `backup`
array, and the caller), so each Collection carries an explicit object heap:
`data` maps a numeric property key to a heap reference, and mutating a record
through one alias is visible through every other alias of the same reference.
-/

namespace JestAxios

/-- A JavaScript value as it appears in the mock database.  Computed fields
(functions stored inline with the data) are kept opaque: `fn fid` names a
function whose meaning is supplied by an environment `FnEnv`.  `undef` is the
JavaScript `undefined` value, `obj` a nested plain object. -/
inductive Val where
  | num (n : Nat)
  | str (s : String)
  | null
  | undef
  | fn (fid : Nat)
  | obj (fields : List (String × Val))
deriving Repr

/-- A JavaScript record object: field names to values, in insertion order. -/
abbrev Record := List (String × Val)

/-- Environment giving meaning to computed-field functions: a function id and
the record it is applied to yield the computed value. -/
abbrev FnEnv := Nat → Record → Val

/-- Does the record have the field (the JavaScript `key in obj` test)? -/
def rhas (r : Record) (k : String) : Bool :=
  r.any (fun kv => kv.1 == k)

/-- Read a field (`obj[key]`); `none` is JavaScript `undefined`. -/
def rget (r : Record) (k : String) : Option Val :=
  (r.find? (fun kv => kv.1 == k)).map (fun kv => kv.2)

/-- JavaScript property write `obj[key] = v`: update in place if present
(keeping the field's position), otherwise append. -/
def rset (r : Record) (k : String) (v : Val) : Record :=
  if rhas r k then r.map (fun kv => if kv.1 == k then (k, v) else kv)
  else r ++ [(k, v)]

/-- lodash `_.omit(obj, exclude)`: a copy of the record without the listed
keys. -/
def omitKeys (r : Record) (ex : List String) : Record :=
  r.filter (fun kv => !(ex.contains kv.1))

/-- Is the stored value a function (lodash `_.isFunction`)? -/
def isFn : Val → Bool
  | Val.fn _ => true
  | _ => false

/-- Evaluate one stored value on a read: a function field is applied to the
full record, a plain value passes through (the `format` helper's branch). -/
def evalVal (env : FnEnv) (obj : Record) : Val → Val
  | Val.fn fid => env fid obj
  | v => v

/-- The copy loop of `format(obj, id)` in src/models.js: starting from
`{id: <numeric id>}` when an id was given (JavaScript-truthy and numeric) and
`{}` otherwise, copy every field of the record, evaluating function fields
against the record. -/
def formatOut (env : FnEnv) (obj : Record) (stamp : Option Nat) : Record :=
  obj.foldl (fun d kv => rset d kv.1 (evalVal env obj kv.2))
    (match stamp with
     | some n => [("id", Val.num n)]
     | none => [])

/-- An object heap: reference → current record value.  `hget` of an
unallocated reference defaults to the empty record (such reads never happen on
the paths the source exercises). -/
abbrev Heap := List (Nat × Record)

def hget (h : Heap) (ref : Nat) : Record :=
  ((h.find? (fun kv => kv.1 == ref)).map (fun kv => kv.2)).getD []

def hhas (h : Heap) (ref : Nat) : Bool :=
  h.any (fun kv => kv.1 == ref)

def hset (h : Heap) (ref : Nat) (r : Record) : Heap :=
  if hhas h ref then h.map (fun kv => if kv.1 == ref then (ref, r) else kv)
  else h ++ [(ref, r)]

/-- Allocate a fresh object. -/
def halloc (h : Heap) (ref : Nat) (r : Record) : Heap :=
  h ++ [(ref, r)]

/-- The numeric-keyed dictionary `this.data` of a Collection: property key →
heap reference. -/
abbrev Dict := List (Nat × Nat)

def dhas (d : Dict) (k : Nat) : Bool :=
  d.any (fun kv => kv.1 == k)

def dlookup (d : Dict) (k : Nat) : Option Nat :=
  ((d.find? (fun kv => kv.1 == k)).map (fun kv => kv.2))

/-- Raw property write `this.data[k] = ref`: overwrite in place or append. -/
def dset (d : Dict) (k : Nat) (ref : Nat) : Dict :=
  if dhas d k then d.map (fun kv => if kv.1 == k then (k, ref) else kv)
  else d ++ [(k, ref)]

/-- `Object.keys` on an object whose own keys are all integer-like returns
them in ascending numeric order, regardless of insertion order. -/
def insertAsc (n : Nat) : List Nat → List Nat
  | [] => [n]
  | m :: ms => if n ≤ m then n :: m :: ms else m :: insertAsc n ms

def sortAsc (l : List Nat) : List Nat := l.foldr insertAsc []

/-- The `Collection` store of src/models.js.  `data` holds the numeric
property keys of `this.data`; `extra` holds the non-numeric property keys the
proxy set trap can add to `this.data` (only the key "data", added by
`reset()`; its value is the constructor's seed array, recoverable as
`backup`).  `backup` is `_.clone(<seed array>)`: a fresh array holding the
same record objects, so it is kept as the list of their heap references in
seed order.  `head`/`backupIndex` are the identifier counter and its
construction-time value, `index` the indexing function. -/
structure Collection where
  name : String
  heap : Heap
  nextRef : Nat
  data : Dict
  extra : List String
  head : Nat
  backup : List Nat
  backupIndex : Nat
  index : Nat → Nat

/-- `Server.index` (src/index.js): `max = max || 0; return max + 1;`. -/
def serverIndex (max : Nat) : Nat :=
  (if max == 0 then 0 else max) + 1

/-- The Collection constructor: allocate one object per seed record, key each
under successive values of the indexing function starting from `head = 0`,
then snapshot the counter in `backupIndex` and the seed array (by reference)
in `backup`. -/
def Collection.build (name : String) (seed : List Record) (index : Nat → Nat) :
    Collection :=
  let n := seed.length
  let refs := List.range n
  let start : Dict × Nat := ([], 0)
  let fill := refs.foldl (fun st ref => let h := index st.2; (dset st.1 h ref, h)) start
  { name := name
    heap := refs.zip seed
    nextRef := n
    data := fill.1
    extra := []
    head := fill.2
    backup := refs
    backupIndex := fill.2
    index := index }

/-- Core of `Collection.get(id)` after the membership test: `format` stamps
the record's own `id` field with the numeric id (in place, through the shared
heap) whenever the id argument was JavaScript-truthy, and returns the
formatted copy. -/
def Collection.getCore (env : FnEnv) (c : Collection) (k : Nat) (stamp : Bool) :
    Record × Collection :=
  match dlookup c.data k with
  | none => ([], c)
  | some ref =>
    let obj := hget c.heap ref
    let obj1 := if stamp then rset obj "id" (Val.num k) else obj
    (formatOut env obj1 (if stamp then some k else none),
     { c with heap := hset c.heap ref obj1 })

/-- `Collection.get(id)` with a numeric id: `undefined` when the id is not a
key of `this.data`; otherwise `format(this.data[id], id)`.  A numeric id of 0
is JavaScript-falsy, so it is not stamped into the record. -/
def Collection.get (env : FnEnv) (c : Collection) (id : Nat) :
    Option Record × Collection :=
  if dhas c.data id then
    let r := c.getCore env id (id != 0)
    (some r.1, r.2)
  else (none, c)

/-- The record `{ id: "<n>", ...this.data[n] }` produced by the proxy get trap
for a numeric property, projected on field `k` (used by
`this.db[relation][id][key]` in the model binder).  The spread's `id` field is
the property key as a string and is overridden by the record's own `id`. -/
def Collection.proxyField (c : Collection) (n : Nat) (k : String) : Option Val :=
  match dlookup c.data n with
  | none => none
  | some ref =>
    let r := hget c.heap ref
    if k == "id" && !(rhas r "id") then some (Val.str (Nat.repr n))
    else rget r k

/-- Resolve a JavaScript value used as a property key of `this.data` (the `in`
test coerces it to a string and compares against the canonical numeric keys).
Returns the numeric key together with the JavaScript-truthiness of the
original value (a number 0 is falsy, any nonempty string such as "0" is
truthy), which decides whether `format` stamps the record. -/
def valKeyLookup (v : Val) (d : Dict) : Option (Nat × Bool) :=
  match v with
  | Val.num n => if dhas d n then some (n, n != 0) else none
  | Val.str s => ((d.find? (fun kv => Nat.repr kv.1 == s)).map (fun kv => (kv.1, true)))
  | _ => none

/-- String form `${id}` of a value, for the `update` error message. -/
def valMsg : Val → String
  | Val.num n => Nat.repr n
  | Val.str s => s
  | Val.null => "null"
  | Val.undef => "undefined"
  | Val.fn _ => "function"
  | Val.obj _ => "[object Object]"

/-- Errors as JavaScript throws them here: `plain` is a bare `new Error(msg)`
(or a TypeError from touching a missing model), `envelope` a thrown
`{status, message}` object such as the helpers in src/errors.js build. -/
inductive JsErr where
  | plain (msg : String)
  | envelope (status : Nat) (msg : String)
deriving Repr, DecidableEq

/-- The merge loop of `Collection.update` and `Singleton.update`:
`_.map(data, (value, key) => { this.data[id][key] = value; })`. -/
def mergeFields (patch : Record) (obj : Record) : Record :=
  patch.foldl (fun o kv => rset o kv.1 kv.2) obj

/-- Core of `Collection.update(id, data)` after the membership test: copy
every field of the patch record into the stored record (in place), then
return `this.get(id)` — which stamps the numeric id when truthy. -/
def Collection.updateCore (env : FnEnv) (c : Collection) (k : Nat) (stamp : Bool)
    (patch : Record) : Record × Collection :=
  match dlookup c.data k with
  | none => ([], c)
  | some ref =>
    let obj1 := mergeFields patch (hget c.heap ref)
    let c1 := { c with heap := hset c.heap ref obj1 }
    c1.getCore env k stamp

/-- `Collection.update(id, data)` with a numeric id: throws when the id is
absent, otherwise merges and returns `this.get(id)`. -/
def Collection.update (env : FnEnv) (c : Collection) (id : Nat) (patch : Record) :
    Except JsErr (Record × Collection) :=
  if dhas c.data id then Except.ok (c.updateCore env id (id != 0) patch)
  else Except.error (JsErr.plain s!"Specified id `{Nat.repr id}` not in collection.")

/-- `Collection.update` when the id argument is an arbitrary JavaScript value
(e.g. `item.id` taken from a request payload). -/
def Collection.updateV (env : FnEnv) (c : Collection) (v : Val) (patch : Record) :
    Except JsErr (Record × Collection) :=
  match valKeyLookup v c.data with
  | some kt => Except.ok (c.updateCore env kt.1 kt.2 patch)
  | none => Except.error (JsErr.plain s!"Specified id `{valMsg v}` not in collection.")

/-- `Collection.add(data)`: fill in any function-valued field present in the
template record (the record under the smallest key) but missing from the
input, advance the counter through the indexing function, store the input
object under the new key and return `this.get(newKey)`. -/
def Collection.add (env : FnEnv) (c : Collection) (data : Record) :
    Option Record × Collection :=
  let tmpl : Record :=
    match sortAsc (c.data.map (fun kv => kv.1)) with
    | [] => []
    | k :: _ => hget c.heap ((dlookup c.data k).getD 0)
  let data1 := tmpl.foldl
    (fun d kv => if isFn kv.2 && !(rhas d kv.1) then d ++ [(kv.1, kv.2)] else d) data
  let h1 := c.index c.head
  let ref := c.nextRef
  let c1 := { c with
    heap := halloc c.heap ref data1
    nextRef := ref + 1
    data := dset c.data h1 ref
    head := h1 }
  c1.get env h1

/-- `Collection.remove(id)`: `delete this.data[id]`; a no-op for an absent key
or an `undefined` id.  The record object itself is not reclaimed. -/
def Collection.remove (c : Collection) (id : Option Nat) : Collection :=
  match id with
  | none => c
  | some n => { c with data := c.data.filter (fun kv => kv.1 != n) }

/-- `Collection.all()`: map `this.get` over `Object.keys(this.data)` — the
numeric keys in ascending order, each passed as a (truthy, numeric) string,
followed by any stray non-numeric key left by the reset trap.  The stray
"data" key formats the seed array itself: `id` keeps the non-numeric string
and the array's elements are copied index by index. -/
def Collection.formatJunk (c : Collection) : Record :=
  (c.backup.enum.map (fun p => (Nat.repr p.1, Val.obj (hget c.heap p.2)))).foldl
    (fun d kv => rset d kv.1 kv.2) [("id", Val.str "data")]

def Collection.allKeys (env : FnEnv) (c : Collection) : List Nat → List Record × Collection
  | [] => ([], c)
  | k :: ks =>
    let r := c.getCore env k true
    let rest := Collection.allKeys env r.2 ks
    (r.1 :: rest.1, rest.2)

def Collection.all (env : FnEnv) (c : Collection) : List Record × Collection :=
  let r := Collection.allKeys env c (sortAsc (c.data.map (fun kv => kv.1)))
  (r.1 ++ c.extra.map (fun _ => c.formatJunk), r.2)

/-- `Model.reset()` as it actually executes on a Collection through the proxy:
the assignment `this.data = _.clone(this.backup)` lands in the set trap, whose
non-`head`, key-not-in-`data` branch runs `obj.head = 'data';
obj.data['data'] = data` — storing the constructor's seed array under the
string key "data" instead of replacing `data` (on a second reset the key is
already present and the trap merges the identical array into itself).  The
following `this.head = this.backupIndex` is the trap's special case and
restores the counter.  No record or numeric key of `data` is touched. -/
def Collection.reset (c : Collection) : Collection :=
  { c with
    extra := if c.extra.contains "data" then c.extra else c.extra ++ ["data"]
    head := c.backupIndex }

/-- The `Singleton` store of src/models.js: one record, plus the shallow clone
taken at construction (independent of later top-level field writes). -/
structure Singleton where
  name : String
  data : Record
  backup : Record

def Singleton.build (name : String) (data : Record) : Singleton :=
  { name := name, data := data, backup := data }

/-- `Singleton.json()` = `all()` = `format(this.data)`: computed fields
evaluated, nothing stamped. -/
def Singleton.json (env : FnEnv) (s : Singleton) : Record :=
  formatOut env s.data none

/-- `Singleton.update(data)`: copy every given field into the record, return
`this.json()`. -/
def Singleton.update (env : FnEnv) (s : Singleton) (fields : List (String × Val)) :
    Record × Singleton :=
  let d1 := mergeFields fields s.data
  (formatOut env d1 none, { s with data := d1 })

/-- `Model.reset()` as it actually executes on a Singleton through the proxy:
`this.data = _.clone(this.backup)` lands in the set trap, which stores the
clone as a field named "data" inside the record; `this.head =
this.backupIndex` reads the nonexistent `backupIndex` (undefined) and stores
it as a field named "head".  The record is not restored. -/
def Singleton.reset (s : Singleton) : Singleton :=
  { s with data := rset (rset s.data "data" (Val.obj s.backup)) "head" Val.undef }

/-- One entry of the server database `this.db`: an array-valued seed becomes a
Collection, an object-valued seed a Singleton. -/
inductive Store where
  | coll (c : Collection)
  | single (s : Singleton)

abbrev Db := List (String × Store)

def dbColl (db : Db) (m : String) : Option Collection :=
  match (db.find? (fun kv => kv.1 == m)).map (fun kv => kv.2) with
  | some (Store.coll c) => some c
  | _ => none

def dbSing (db : Db) (m : String) : Option Singleton :=
  match (db.find? (fun kv => kv.1 == m)).map (fun kv => kv.2) with
  | some (Store.single s) => some s
  | _ => none

def dbSetColl (db : Db) (m : String) (c : Collection) : Db :=
  db.map (fun kv => if kv.1 == m then (m, Store.coll c) else kv)

def dbSetSing (db : Db) (m : String) (s : Singleton) : Db :=
  db.map (fun kv => if kv.1 == m then (m, Store.single s) else kv)

/-- A request or response payload: a single record or an array of records. -/
inductive JData where
  | obj (r : Record)
  | arr (rs : List Record)

/-- lodash iteration (`_.map(data, (value, key) => ...)`) sees an array as its
index-keyed entries; record fields pass through unchanged. -/
def JData.entries : JData → List (String × Val)
  | JData.obj r => r
  | JData.arr rs => rs.enum.map (fun p => (Nat.repr p.1, Val.obj p.2))

/-- What a handler invocation produces: a returned value (`none` being
JavaScript `undefined`) or a synchronously thrown error. -/
inductive HRes where
  | ok (v : Option JData)
  | thrown (e : JsErr)

/-- Binder options (src/index.js): a bare string `model` is shorthand for
`{model}` with no exclusions and no relation; absent `exclude` defaults to the
empty list.  `relation`/`key` are JavaScript-falsy when absent or empty. -/
structure Options where
  model : String
  exclude : List String := []
  relation : Option String := none
  key : Option String := none

def optTruthy : Option String → Bool
  | none => false
  | some s => !(s == "")

def idTruthy : Option Nat → Bool
  | none => false
  | some n => n != 0

/-- A TypeError from calling a method on a missing database model.  A binder
bound to a name whose store is of the other kind is modelled the same way
(none of the code or tests ever does that). -/
def typeError : JsErr := JsErr.plain "TypeError: model is not in the database"

/-- The collection binder's `get(id)` (src/index.js): format every record,
strip the excluded keys, and — when the path id, the relation and the key are
all truthy — keep only the items whose `key` field is strictly equal (`===`)
to the numeric id. -/
def collectionGet (opts : Options) (env : FnEnv) (id : Option Nat) (db : Db) :
    HRes × Db :=
  match dbColl db opts.model with
  | none => (HRes.thrown typeError, db)
  | some c =>
    let ar := Collection.all env c
    let items := ar.1.map (fun r => omitKeys r opts.exclude)
    let items1 :=
      if idTruthy id && optTruthy opts.relation && optTruthy opts.key then
        items.filter (fun item =>
          match rget item (opts.key.getD "") with
          | some (Val.num m) => m == id.getD 0
          | _ => false)
      else items
    (HRes.ok (some (JData.arr items1)), dbSetColl db opts.model ar.2)

/-- The `process` closure of the collection binder's `post`: stamp the item's
`key` field with the path id when relation context is present, then update by
the item's own `id` field if it has one, else add; either way strip the
excluded keys from the result.  The item object itself is the caller's and is
mutated before storing. -/
def processItem (opts : Options) (env : FnEnv) (stamp : Option Nat)
    (item : Record) (c : Collection) : Except JsErr Record × Collection :=
  let item1 :=
    match stamp with
    | some n => rset item (opts.key.getD "") (Val.num n)
    | none => item
  if rhas item1 "id" then
    match Collection.updateV env c ((rget item1 "id").getD Val.undef) item1 with
    | Except.error e => (Except.error e, c)
    | Except.ok rc => (Except.ok (omitKeys rc.1 opts.exclude), rc.2)
  else
    let rc := Collection.add env c item1
    (Except.ok (omitKeys (rc.1.getD []) opts.exclude), rc.2)

/-- `data.map(item => process(item))`: items are processed left to right; a
throw aborts the rest but keeps the mutations already made. -/
def processItems (opts : Options) (env : FnEnv) (stamp : Option Nat) :
    List Record → Collection → Except JsErr (List Record) × Collection
  | [], c => (Except.ok [], c)
  | r :: rs, c =>
    match processItem opts env stamp r c with
    | (Except.error e, c1) => (Except.error e, c1)
    | (Except.ok out, c1) =>
      match processItems opts env stamp rs c1 with
      | (Except.ok outs, c2) => (Except.ok (out :: outs), c2)
      | (Except.error e, c2) => (Except.error e, c2)

/-- The collection binder's `post(data, id)`: either a single record or an
array of records; the output shape mirrors the input shape. -/
def collectionPost (opts : Options) (env : FnEnv) (data : JData) (id : Option Nat)
    (db : Db) : HRes × Db :=
  let stamp :=
    if idTruthy id && optTruthy opts.relation && optTruthy opts.key then id
    else none
  match data with
  | JData.obj r =>
    match dbColl db opts.model with
    | none => (HRes.thrown typeError, db)
    | some c =>
      match processItem opts env stamp r c with
      | (Except.error e, c1) => (HRes.thrown e, dbSetColl db opts.model c1)
      | (Except.ok out, c1) =>
        (HRes.ok (some (JData.obj out)), dbSetColl db opts.model c1)
  | JData.arr rs =>
    -- mapping over an empty array never touches `this.db[model]`
    if rs.isEmpty then (HRes.ok (some (JData.arr [])), db)
    else
      match dbColl db opts.model with
      | none => (HRes.thrown typeError, db)
      | some c =>
        match processItems opts env stamp rs c with
        | (Except.error e, c1) => (HRes.thrown e, dbSetColl db opts.model c1)
        | (Except.ok outs, c1) =>
          (HRes.ok (some (JData.arr outs)), dbSetColl db opts.model c1)

/-- The `process` closure of the collection binder's `put`: unconditionally
stamp the item's `key` field with the path id, then update the record under
the item's own `id` field (throwing when that id is not in the collection)
and strip exclusions. -/
def processPutItem (opts : Options) (env : FnEnv) (n : Nat) (item : Record)
    (c : Collection) : Except JsErr Record × Collection :=
  let item1 := rset item (opts.key.getD "") (Val.num n)
  match Collection.updateV env c ((rget item1 "id").getD Val.undef) item1 with
  | Except.error e => (Except.error e, c)
  | Except.ok rc => (Except.ok (omitKeys rc.1 opts.exclude), rc.2)

def processPutItems (opts : Options) (env : FnEnv) (n : Nat) :
    List Record → Collection → Except JsErr (List Record) × Collection
  | [], c => (Except.ok [], c)
  | r :: rs, c =>
    match processPutItem opts env n r c with
    | (Except.error e, c1) => (Except.error e, c1)
    | (Except.ok out, c1) =>
      match processPutItems opts env n rs c1 with
      | (Except.ok outs, c2) => (Except.ok (out :: outs), c2)
      | (Except.error e, c2) => (Except.error e, c2)

/-- The collection binder's `put(data, id)`: `undefined` unless the path id,
the relation, and the key are all truthy and the payload is an array;
otherwise stamp each item's `key` with the id and update each record by the
item's own `id` field. -/
def collectionPut (opts : Options) (env : FnEnv) (data : JData) (id : Option Nat)
    (db : Db) : HRes × Db :=
  match data with
  | JData.arr rs =>
    if idTruthy id && optTruthy opts.relation && optTruthy opts.key then
      if rs.isEmpty then (HRes.ok (some (JData.arr [])), db)
      else
        match dbColl db opts.model with
        | none => (HRes.thrown typeError, db)
        | some c =>
          match processPutItems opts env (id.getD 0) rs c with
          | (Except.error e, c1) => (HRes.thrown e, dbSetColl db opts.model c1)
          | (Except.ok outs, c1) =>
            (HRes.ok (some (JData.arr outs)), dbSetColl db opts.model c1)
    else (HRes.ok none, db)
  | JData.obj _ => (HRes.ok none, db)

/-- The model binder's `get(id)`: with a truthy id and relation context,
resolve the path id through the relation store first (`undefined` when the
relation id is absent), taking the foreign-key value of the relation record
through the proxy spread; then read the target record and strip exclusions,
or `undefined` when the (resolved) id is not in the model store. -/
def modelGet (opts : Options) (env : FnEnv) (id : Option Nat) (db : Db) :
    HRes × Db :=
  if idTruthy id && optTruthy opts.relation && optTruthy opts.key then
    let n := id.getD 0
    match dbColl db (opts.relation.getD "") with
    | none => (HRes.thrown typeError, db)
    | some rc =>
      if dhas rc.data n then
        match Collection.proxyField rc n (opts.key.getD "") with
        | none => (HRes.ok none, db)   -- `undefined in this.db[model].data` is false
        | some v =>
          match dbColl db opts.model with
          | none => (HRes.thrown typeError, db)
          | some mc =>
            match valKeyLookup v mc.data with
            | none => (HRes.ok none, db)
            | some kt =>
              let oc := Collection.getCore env mc kt.1 kt.2
              (HRes.ok (some (JData.obj (omitKeys oc.1 opts.exclude))),
               dbSetColl db opts.model oc.2)
      else (HRes.ok none, db)
  else
    match dbColl db opts.model with
    | none => (HRes.thrown typeError, db)
    | some mc =>
      match id with
      | none => (HRes.ok none, db)
      | some n =>
        if dhas mc.data n then
          let oc := Collection.getCore env mc n (n != 0)
          (HRes.ok (some (JData.obj (omitKeys oc.1 opts.exclude))),
           dbSetColl db opts.model oc.2)
        else (HRes.ok none, db)

/-- The model binder's `put(data, id)`.  With relation context: `undefined`
unless both the path id exists in the relation store and `data.id` exists in
the model store; then the relation record's `key` field is set to `data.id`
by a raw write and the target record is returned by `this.db[model].get` —
with no exclusion stripping.  Without relation context: `undefined` when the
id is absent, else merge and return with exclusions stripped. -/
def Collection.rawSetField (c : Collection) (n : Nat) (k : String) (v : Val) :
    Collection :=
  match dlookup c.data n with
  | none => c
  | some ref => { c with heap := hset c.heap ref (rset (hget c.heap ref) k v) }

def modelPut (opts : Options) (env : FnEnv) (data : JData) (id : Option Nat)
    (db : Db) : HRes × Db :=
  if idTruthy id && optTruthy opts.relation && optTruthy opts.key then
    let rn := opts.relation.getD ""
    let n := id.getD 0
    match dbColl db rn with
    | none => (HRes.thrown typeError, db)
    | some rc =>
      if dhas rc.data n then
        let dataId : Option Val :=
          match data with
          | JData.obj r => rget r "id"
          | JData.arr _ => none
        match dbColl db opts.model with
        | none => (HRes.thrown typeError, db)
        | some mc =>
          match dataId.bind (fun v => valKeyLookup v mc.data) with
          | none => (HRes.ok none, db)
          | some kt =>
            let rc1 := Collection.rawSetField rc n (opts.key.getD "")
              (dataId.getD Val.undef)
            let db1 := dbSetColl db rn rc1
            match dbColl db1 opts.model with
            | none => (HRes.thrown typeError, db1)
            | some mc1 =>
              let oc := Collection.getCore env mc1 kt.1 kt.2
              (HRes.ok (some (JData.obj oc.1)), dbSetColl db1 opts.model oc.2)
      else (HRes.ok none, db)
  else
    match dbColl db opts.model with
    | none => (HRes.thrown typeError, db)
    | some mc =>
      match id with
      | none => (HRes.ok none, db)
      | some n =>
        if dhas mc.data n then
          match Collection.update env mc n (JData.entries data) with
          | Except.error e => (HRes.thrown e, db)
          | Except.ok rc =>
            (HRes.ok (some (JData.obj (omitKeys rc.1 opts.exclude))),
             dbSetColl db opts.model rc.2)
        else (HRes.ok none, db)

/-- The model binder's `post(data, id)`: `undefined` unless the path id, the
relation, the key are all truthy and the payload is a plain object; then
update-or-add in the model store (exclusions stripped), link the relation
record's `key` field to the result's `id` through `relation.update`, and
return the stored result. -/
def modelPost (opts : Options) (env : FnEnv) (data : JData) (id : Option Nat)
    (db : Db) : HRes × Db :=
  let isPlain := match data with | JData.obj _ => true | JData.arr _ => false
  if idTruthy id && optTruthy opts.relation && optTruthy opts.key && isPlain then
    let r := match data with | JData.obj r => r | JData.arr _ => []
    match dbColl db opts.model with
    | none => (HRes.thrown typeError, db)
    | some mc =>
      let step : Except JsErr Record × Collection :=
        if rhas r "id" then
          match Collection.updateV env mc ((rget r "id").getD Val.undef) r with
          | Except.error e => (Except.error e, mc)
          | Except.ok rc => (Except.ok (omitKeys rc.1 opts.exclude), rc.2)
        else
          let rc := Collection.add env mc r
          (Except.ok (omitKeys (rc.1.getD []) opts.exclude), rc.2)
      match step with
      | (Except.error e, mc1) => (HRes.thrown e, dbSetColl db opts.model mc1)
      | (Except.ok res, mc1) =>
        let db1 := dbSetColl db opts.model mc1
        match dbColl db1 (opts.relation.getD "") with
        | none => (HRes.thrown typeError, db1)
        | some rc =>
          match Collection.update env rc (id.getD 0)
              [(opts.key.getD "", (rget res "id").getD Val.undef)] with
          | Except.error e => (HRes.thrown e, db1)
          | Except.ok rr =>
            (HRes.ok (some (JData.obj res)),
             dbSetColl db1 (opts.relation.getD "") rr.2)
  else (HRes.ok none, db)

/-- The model binder's `delete(id)`: with relation context, unlink by
`relation.update(id, {[key]: null})` (which also stamps the relation record's
`id` on the read-back) and return `undefined`; otherwise remove the record
from the model store. -/
def modelDelete (opts : Options) (env : FnEnv) (id : Option Nat) (db : Db) :
    HRes × Db :=
  if idTruthy id && optTruthy opts.relation && optTruthy opts.key then
    let rn := opts.relation.getD ""
    match dbColl db rn with
    | none => (HRes.thrown typeError, db)
    | some rc =>
      match Collection.update env rc (id.getD 0) [(opts.key.getD "", Val.null)] with
      | Except.error e => (HRes.thrown e, db)
      | Except.ok rr => (HRes.ok none, dbSetColl db rn rr.2)
  else
    match dbColl db opts.model with
    | none => (HRes.thrown typeError, db)
    | some mc => (HRes.ok none, dbSetColl db opts.model (mc.remove id))

/-- The singleton binder's handlers: formatted data minus exclusions,
merge-and-return minus exclusions, and reset on delete. -/
def singletonGet (opts : Options) (env : FnEnv) (_id : Option Nat) (db : Db) :
    HRes × Db :=
  match dbSing db opts.model with
  | none => (HRes.thrown typeError, db)
  | some s =>
    (HRes.ok (some (JData.obj (omitKeys (Singleton.json env s) opts.exclude))), db)

def singletonPut (opts : Options) (env : FnEnv) (data : JData) (db : Db) :
    HRes × Db :=
  match dbSing db opts.model with
  | none => (HRes.thrown typeError, db)
  | some s =>
    let rs := Singleton.update env s (JData.entries data)
    (HRes.ok (some (JData.obj (omitKeys rs.1 opts.exclude))),
     dbSetSing db opts.model rs.2)

def singletonDelete (opts : Options) (_env : FnEnv) (_id : Option Nat) (db : Db) :
    HRes × Db :=
  match dbSing db opts.model with
  | none => (HRes.thrown typeError, db)
  | some s => (HRes.ok none, dbSetSing db opts.model (Singleton.reset s))

/-- src/errors.js: the rejection envelopes. -/
def NotFound (url : String) : JsErr :=
  JsErr.envelope 404 s!"URL `{url}` not in API"

def idMsg : Option Nat → String
  | none => "null"
  | some n => Nat.repr n

def Missing (id : Option Nat) : JsErr :=
  JsErr.envelope 404
    s!"Could not find either resource `{idMsg id}` or nested payload for resource."

def Forbidden (url : Option String) : JsErr :=
  JsErr.envelope 403
    (match url with
     | some u => if u == "" then "Unauthorized" else s!"Not authorized to access `{u}`"
     | none => "Unauthorized")

def ServerError : JsErr :=
  JsErr.envelope 500 "Internal Server Error"

/-- The regex search of `normalize` (src/index.js): the leftmost occurrence of
a '/' followed by at least one decimal digit, with the digit run taken
greedily.  Returns the characters before that '/', the digit run, and the
rest. -/
def findIdSeg : List Char → Option (List Char × List Char × List Char)
  | [] => none
  | c :: rest =>
    let ds := rest.takeWhile Char.isDigit
    if c = '/' ∧ ds ≠ [] then some ([], ds, rest.drop ds.length)
    else (findIdSeg rest).map (fun t => (c :: t.1, t.2.1, t.2.2))

/-- `Number` on a run of decimal digits (never NaN, so `_.cast` always
returns the numeric form). -/
def digitsToNat (ds : List Char) : Nat :=
  ds.foldl (fun n c => 10 * n + (c.toNat - 48)) 0

structure Normalized where
  id : Option Nat
  endpoint : String
deriving Repr, DecidableEq

/-- `normalize(url)`: replace the first `/<digits>` with `/:id` and return the
numerically cast digits as the id; without a match the id is null and the
endpoint is the url unchanged. -/
def normalize (url : String) : Normalized :=
  match findIdSeg url.data with
  | none => { id := none, endpoint := url }
  | some t =>
    { id := some (digitsToNat t.2.1)
      endpoint := String.mk (t.1 ++ ('/' :: ':' :: 'i' :: 'd' :: t.2.2)) }

/-- One endpoint's handler set.  `get`/`delete` handlers are invoked with the
parsed id, `post`/`put` handlers with `(data, id)`; every handler reads and
returns the server database. -/
structure HandlerSet where
  get : Option (Option Nat → Db → HRes × Db) := none
  post : Option (JData → Option Nat → Db → HRes × Db) := none
  put : Option (JData → Option Nat → Db → HRes × Db) := none
  delete : Option (Option Nat → Db → HRes × Db) := none

/-- The endpoint table `this._api`: a registered endpoint maps to its handler
set or to an explicit `null` (`none`). -/
abbrev Api := List (String × Option HandlerSet)

def lookupApi (api : Api) (e : String) : Option (Option HandlerSet) :=
  (api.find? (fun kv => kv.1 == e)).map (fun kv => kv.2)

/-- A resolved response envelope `{status, data}`. -/
structure Response where
  status : Nat
  data : Option JData

/-- The GET interceptor of `Server.init`: parse, look up the endpoint (a
missing or null entry and a missing verb handler reject with `NotFound` — the
promise settles on the first rejection), invoke, translate an `undefined`
result into a `Missing` rejection, otherwise resolve with status 200. -/
def dispatchGet (api : Api) (baseUrl url : String) (db : Db) :
    Except JsErr Response × Db :=
  let nrm := normalize (baseUrl ++ url)
  match lookupApi api nrm.endpoint with
  | none => (Except.error (NotFound url), db)
  | some none => (Except.error (NotFound url), db)
  | some (some hs) =>
    match hs.get with
    | none => (Except.error (NotFound url), db)
    | some h =>
      match h nrm.id db with
      | (HRes.thrown e, db1) => (Except.error e, db1)
      | (HRes.ok none, db1) => (Except.error (Missing nrm.id), db1)
      | (HRes.ok (some v), db1) => (Except.ok { status := 200, data := some v }, db1)

/-- The POST interceptor: resolve with status 201; no `undefined` check. -/
def dispatchPost (api : Api) (baseUrl url : String) (data : JData) (db : Db) :
    Except JsErr Response × Db :=
  let nrm := normalize (baseUrl ++ url)
  match lookupApi api nrm.endpoint with
  | none => (Except.error (NotFound url), db)
  | some none => (Except.error (NotFound url), db)
  | some (some hs) =>
    match hs.post with
    | none => (Except.error (NotFound url), db)
    | some h =>
      match h data nrm.id db with
      | (HRes.thrown e, db1) => (Except.error e, db1)
      | (HRes.ok v, db1) => (Except.ok { status := 201, data := v }, db1)

/-- The PUT interceptor: resolve with status 200; no `undefined` check. -/
def dispatchPut (api : Api) (baseUrl url : String) (data : JData) (db : Db) :
    Except JsErr Response × Db :=
  let nrm := normalize (baseUrl ++ url)
  match lookupApi api nrm.endpoint with
  | none => (Except.error (NotFound url), db)
  | some none => (Except.error (NotFound url), db)
  | some (some hs) =>
    match hs.put with
    | none => (Except.error (NotFound url), db)
    | some h =>
      match h data nrm.id db with
      | (HRes.thrown e, db1) => (Except.error e, db1)
      | (HRes.ok v, db1) => (Except.ok { status := 200, data := v }, db1)

/-- The DELETE interceptor: resolve with status 204. -/
def dispatchDelete (api : Api) (baseUrl url : String) (db : Db) :
    Except JsErr Response × Db :=
  let nrm := normalize (baseUrl ++ url)
  match lookupApi api nrm.endpoint with
  | none => (Except.error (NotFound url), db)
  | some none => (Except.error (NotFound url), db)
  | some (some hs) =>
    match hs.delete with
    | none => (Except.error (NotFound url), db)
    | some h =>
      match h nrm.id db with
      | (HRes.thrown e, db1) => (Except.error e, db1)
      | (HRes.ok v, db1) => (Except.ok { status := 204, data := v }, db1)

inductive Verb where
  | get
  | post
  | put
  | delete
deriving Repr, DecidableEq

/-- Dispatch one request through the interceptor for the verb. -/
def dispatch (v : Verb) (api : Api) (baseUrl url : String) (data : JData)
    (db : Db) : Except JsErr Response × Db :=
  match v with
  | Verb.get => dispatchGet api baseUrl url db
  | Verb.post => dispatchPost api baseUrl url data db
  | Verb.put => dispatchPut api baseUrl url data db
  | Verb.delete => dispatchDelete api baseUrl url db

/-- Invoke the handler a handler set binds to a verb, if any: the common shape
used to state dispatcher properties uniformly over verbs. -/
def runVerb (hs : HandlerSet) (v : Verb) (data : JData) (id : Option Nat)
    (db : Db) : Option (HRes × Db) :=
  match v with
  | Verb.get => hs.get.map (fun h => h id db)
  | Verb.post => hs.post.map (fun h => h data id db)
  | Verb.put => hs.put.map (fun h => h data id db)
  | Verb.delete => hs.delete.map (fun h => h id db)

/-- The three binder factories of `Server` assemble endpoint handler sets
(`collection` and `model` leave the verbs they do not define unbound). -/
def Server.collection (opts : Options) (env : FnEnv) : HandlerSet :=
  { get := some (fun id db => collectionGet opts env id db)
    post := some (fun data id db => collectionPost opts env data id db)
    put := some (fun data id db => collectionPut opts env data id db) }

def Server.model (opts : Options) (env : FnEnv) : HandlerSet :=
  { get := some (fun id db => modelGet opts env id db)
    put := some (fun data id db => modelPut opts env data id db)
    post := some (fun data id db => modelPost opts env data id db)
    delete := some (fun id db => modelDelete opts env id db) }

def Server.singleton (opts : Options) (env : FnEnv) : HandlerSet :=
  { get := some (fun id db => singletonGet opts env id db)
    put := some (fun data _id db => singletonPut opts env data db)
    delete := some (fun id db => singletonDelete opts env id db) }

/-! Algebra of record, heap and dictionary operations. -/

theorem rget_cons (kv : String × Val) (r : Record) (k : String) :
    rget (kv :: r) k = if kv.1 = k then some kv.2 else rget r k := by
  by_cases h : kv.1 = k
  · simp [rget, List.find?_cons, beq_iff_eq.2 h, h]
  · simp [rget, List.find?_cons, beq_eq_false_iff_ne.2 h, h]

theorem rhas_cons (kv : String × Val) (r : Record) (k : String) :
    rhas (kv :: r) k = (kv.1 == k || rhas r k) := by
  simp [rhas, List.any_cons]

theorem rhas_eq_isSome (r : Record) (k : String) : rhas r k = (rget r k).isSome := by
  induction r with
  | nil => rfl
  | cons kv r ih =>
    rw [rhas_cons, rget_cons]
    by_cases h : kv.1 = k
    · simp [h]
    · simp only [beq_eq_false_iff_ne.2 h, Bool.false_or, if_neg h]
      exact ih

theorem rget_map_set (r : Record) (k1 k2 : String) (v : Val) :
    rget (r.map (fun kv => if kv.1 == k1 then (k1, v) else kv)) k2 =
      if k2 = k1 then (if rhas r k1 then some v else none) else rget r k2 := by
  induction r with
  | nil => by_cases h : k2 = k1 <;> simp [rget, rhas, h]
  | cons kv r ih =>
    rw [List.map_cons]
    simp only [beq_iff_eq] at ih ⊢
    by_cases hk : kv.1 = k1
    · by_cases h2 : k2 = k1
      · subst h2
        simp [rget_cons, rhas_cons, hk, ih]
      · have h4 : k1 ≠ k2 := fun h => h2 h.symm
        simp [rget_cons, rhas_cons, hk, h4, h2, ih]
    · by_cases h2 : k2 = k1
      · subst h2
        simp [rget_cons, rhas_cons, hk, ih]
      · by_cases h3 : kv.1 = k2
        · simp [rget_cons, rhas_cons, hk, h3, h2, ih]
        · simp [rget_cons, rhas_cons, hk, h3, h2, ih]

theorem rget_append_single (r : Record) (k1 k2 : String) (v : Val) :
    rget (r ++ [(k1, v)]) k2 =
      match rget r k2 with
      | some w => some w
      | none => if k2 = k1 then some v else none := by
  induction r with
  | nil =>
    by_cases h : k2 = k1
    · simp [rget_cons, rget, h]
    · have h4 : k1 ≠ k2 := fun hh => h hh.symm
      simp [rget_cons, rget, h4, h]
  | cons kv r ih =>
    rw [List.cons_append]
    by_cases h3 : kv.1 = k2
    · simp [rget_cons, h3]
    · simp [rget_cons, h3, ih]

theorem rget_rset (r : Record) (k1 k2 : String) (v : Val) :
    rget (rset r k1 v) k2 = if k2 = k1 then some v else rget r k2 := by
  unfold rset
  split
  · rename_i h
    rw [rget_map_set]
    by_cases h2 : k2 = k1 <;> simp [h, h2]
  · rename_i h
    rw [rget_append_single]
    have hn : rget r k1 = none := by
      have hs := rhas_eq_isSome r k1
      rcases hr : rget r k1 with _ | w
      · rfl
      · rw [hr] at hs; simp at hs; exact absurd hs h
    by_cases h2 : k2 = k1
    · subst h2; rw [hn, if_pos rfl]
    · cases hr : rget r k2 <;> simp [h2]

theorem rhas_rset (r : Record) (k1 k2 : String) (v : Val) :
    rhas (rset r k1 v) k2 = (k2 == k1 || rhas r k2) := by
  rw [rhas_eq_isSome, rget_rset, rhas_eq_isSome]
  by_cases h2 : k2 = k1 <;> simp [h2]

theorem rhas_omitKeys (r : Record) (ex : List String) (f : String) (hf : f ∈ ex) :
    rhas (omitKeys r ex) f = false := by
  unfold rhas omitKeys
  rw [List.any_eq_false]
  intro kv hm
  have hmem := List.mem_filter.1 hm
  by_contra hb
  simp only [Bool.not_eq_false, beq_iff_eq] at hb
  have hc := hmem.2
  rw [hb] at hc
  have helem : ex.contains f = true := List.elem_iff.2 hf
  rw [helem] at hc
  exact absurd hc (by simp)

theorem rget_omitKeys_not_mem (r : Record) (ex : List String) (f : String)
    (hf : ¬ f ∈ ex) : rget (omitKeys r ex) f = rget r f := by
  induction r with
  | nil => rfl
  | cons kv r ih =>
    unfold omitKeys at *
    rw [List.filter_cons]
    by_cases h3 : kv.1 = f
    · have hc : (!ex.contains kv.1) = true := by
        subst h3
        have : kv.1 ∉ ex := hf
        simpa using fun hmem => this (List.elem_iff.1 hmem)
      simp only [hc, if_pos, rget_cons, if_pos h3]
    · cases hc : (!ex.contains kv.1) with
      | true => simp only [hc, if_pos, rget_cons, if_neg h3, ih]
      | false =>
        rw [if_neg (by simp [hc]), ih, rget_cons, if_neg h3]

theorem rset_of_rhas (r : Record) (k : String) (v : Val) (hh : rhas r k = true) :
    rset r k v = r.map (fun kv => if kv.1 == k then (k, v) else kv) := by
  unfold rset
  rw [if_pos hh]

theorem rset_of_not_rhas (r : Record) (k : String) (v : Val) (hh : rhas r k = false) :
    rset r k v = r ++ [(k, v)] := by
  unfold rset
  rw [if_neg (by simp [hh])]

theorem rhas_map_set (r : Record) (k k2 : String) (v : Val) :
    rhas (r.map (fun kv => if kv.1 == k then (k, v) else kv)) k2
      = rhas r k2 := by
  rw [rhas_eq_isSome, rhas_eq_isSome, rget_map_set]
  by_cases h2 : k2 = k
  · subst h2
    rw [if_pos rfl, rhas_eq_isSome]
    cases hr : rget r k2 <;> simp [hr]
  · rw [if_neg h2]

theorem map_set_of_not_rhas (r : Record) (k : String) (v : Val)
    (hh : rhas r k = false) :
    r.map (fun kv => if kv.1 == k then (k, v) else kv) = r := by
  conv_rhs => rw [← List.map_id r]
  apply List.map_congr_left
  intro kv hm
  have hne : kv.1 ≠ k := by
    intro hkk
    have : rhas r k = true := by
      unfold rhas
      rw [List.any_eq_true]
      exact ⟨kv, hm, beq_iff_eq.2 hkk⟩
    rw [this] at hh
    cases hh
  simp [beq_eq_false_iff_ne.2 hne]

theorem rset_rset_same (r : Record) (k : String) (v : Val) :
    rset (rset r k v) k v = rset r k v := by
  cases hh : rhas r k with
  | true =>
    rw [rset_of_rhas r k v hh,
      rset_of_rhas _ k v (by rw [rhas_map_set]; exact hh), List.map_map]
    apply List.map_congr_left
    intro kv _
    by_cases hk : kv.1 = k
    · simp [hk]
    · simp [beq_eq_false_iff_ne.2 hk, hk]
  | false =>
    rw [rset_of_not_rhas r k v hh]
    have hh2 : rhas (r ++ [(k, v)]) k = true := by
      rw [rhas_eq_isSome, rget_append_single]
      cases hr : rget r k with
      | none => simp
      | some w =>
        have := rhas_eq_isSome r k
        rw [hr, hh] at this
        simp at this
    rw [rset_of_rhas _ k v hh2, List.map_append, map_set_of_not_rhas r k v hh]
    simp

theorem hget_cons (kv : Nat × Record) (h : Heap) (ref : Nat) :
    hget (kv :: h) ref = if kv.1 = ref then kv.2 else hget h ref := by
  by_cases hk : kv.1 = ref
  · simp [hget, List.find?_cons, beq_iff_eq.2 hk, hk]
  · simp [hget, List.find?_cons, beq_eq_false_iff_ne.2 hk, hk]

theorem hhas_cons (kv : Nat × Record) (h : Heap) (ref : Nat) :
    hhas (kv :: h) ref = (kv.1 == ref || hhas h ref) := by
  simp [hhas, List.any_cons]

theorem hset_of_hhas (h : Heap) (ref : Nat) (r : Record) (hh : hhas h ref = true) :
    hset h ref r = h.map (fun kv => if kv.1 == ref then (ref, r) else kv) := by
  unfold hset
  rw [if_pos hh]

theorem hset_of_not_hhas (h : Heap) (ref : Nat) (r : Record) (hh : hhas h ref = false) :
    hset h ref r = h ++ [(ref, r)] := by
  unfold hset
  rw [if_neg (by simp [hh])]

theorem hget_map_set (h : Heap) (ref q : Nat) (r : Record) :
    hget (h.map (fun kv => if kv.1 == ref then (ref, r) else kv)) q =
      if q = ref then (if hhas h ref then r else hget h q) else hget h q := by
  induction h with
  | nil => by_cases hq : q = ref <;> simp [hget, hhas, hq]
  | cons kv h ih =>
    rw [List.map_cons]
    simp only [beq_iff_eq] at ih ⊢
    by_cases hk : kv.1 = ref
    · by_cases hq : q = ref
      · subst hq
        simp [hget_cons, hhas_cons, hk, ih]
      · have h4 : ref ≠ q := fun hh => hq hh.symm
        simp [hget_cons, hhas_cons, hk, h4, hq, ih]
    · by_cases hq : q = ref
      · subst hq
        simp [hget_cons, hhas_cons, hk, ih]
      · by_cases h3 : kv.1 = q
        · simp [hget_cons, hhas_cons, hk, h3, hq, ih]
        · simp [hget_cons, hhas_cons, hk, h3, hq, ih]

theorem hhas_map_set (h : Heap) (ref q : Nat) (r : Record) :
    hhas (h.map (fun kv => if kv.1 == ref then (ref, r) else kv)) q = hhas h q := by
  induction h with
  | nil => rfl
  | cons kv h ih =>
    rw [List.map_cons, hhas_cons, hhas_cons, ih]
    by_cases hk : kv.1 = ref
    · simp [hk]
    · simp [beq_eq_false_iff_ne.2 hk]

theorem hget_append_single (h : Heap) (ref q : Nat) (r : Record) :
    hget (h ++ [(ref, r)]) q =
      if hhas h q then hget h q else (if q = ref then r else []) := by
  induction h with
  | nil =>
    by_cases hq : q = ref
    · simp [hget_cons, hhas, hget, hq]
    · have h4 : ref ≠ q := fun hh => hq hh.symm
      simp [hget_cons, hget, hhas, h4, hq]
  | cons kv h ih =>
    rw [List.cons_append]
    by_cases h3 : kv.1 = q
    · simp [hget_cons, hhas_cons, h3]
    · simp [hget_cons, hhas_cons, beq_eq_false_iff_ne.2 h3, h3, ih]

theorem hhas_append_single (h : Heap) (ref q : Nat) (r : Record) :
    hhas (h ++ [(ref, r)]) q = (hhas h q || ref == q) := by
  induction h with
  | nil => simp [hhas_cons, hhas]
  | cons kv h ih =>
    rw [List.cons_append, hhas_cons, hhas_cons, ih, Bool.or_assoc]

theorem rhasHeapNone (h : Heap) (q : Nat) (hh : hhas h q = false) :
    hget h q = [] := by
  induction h with
  | nil => rfl
  | cons kv h ih =>
    rw [hhas_cons, Bool.or_eq_false_iff] at hh
    rw [hget_cons, if_neg (by simpa using hh.1)]
    exact ih hh.2

theorem mapSetHeapId (h : Heap) (ref : Nat) (r : Record) (hh : hhas h ref = false) :
    h.map (fun kv => if kv.1 == ref then (ref, r) else kv) = h := by
  conv_rhs => rw [← List.map_id h]
  apply List.map_congr_left
  intro kv hm
  have hne : kv.1 ≠ ref := by
    intro hkk
    have hx : hhas h ref = true := by
      unfold hhas
      rw [List.any_eq_true]
      exact ⟨kv, hm, beq_iff_eq.2 hkk⟩
    rw [hx] at hh
    cases hh
  simp [beq_eq_false_iff_ne.2 hne]

theorem hget_hset (h : Heap) (ref : Nat) (r : Record) :
    hget (hset h ref r) ref = r := by
  cases hh : hhas h ref with
  | true => rw [hset_of_hhas h ref r hh, hget_map_set, if_pos rfl, if_pos hh]
  | false =>
    rw [hset_of_not_hhas h ref r hh, hget_append_single, if_neg (by simp [hh]),
      if_pos rfl]

theorem hget_hset_ne (h : Heap) (ref r2 : Nat) (r : Record) (hne : r2 ≠ ref) :
    hget (hset h ref r) r2 = hget h r2 := by
  cases hh : hhas h ref with
  | true => rw [hset_of_hhas h ref r hh, hget_map_set, if_neg hne]
  | false =>
    rw [hset_of_not_hhas h ref r hh, hget_append_single, if_neg hne]
    cases h2 : hhas h r2 with
    | true => rw [if_pos (by simp [h2])]
    | false =>
      rw [if_neg (by simp [h2])]
      rw [rhasHeapNone h r2 h2]

theorem hhas_hset (h : Heap) (ref : Nat) (r : Record) :
    hhas (hset h ref r) ref = true := by
  cases hh : hhas h ref with
  | true => rw [hset_of_hhas h ref r hh, hhas_map_set, hh]
  | false => rw [hset_of_not_hhas h ref r hh, hhas_append_single, hh]; simp

theorem hset_hset (h : Heap) (ref : Nat) (a b : Record) :
    hset (hset h ref a) ref b = hset h ref b := by
  cases hh : hhas h ref with
  | true =>
    rw [hset_of_hhas h ref a hh, hset_of_hhas h ref b hh,
      hset_of_hhas _ ref b (by rw [hhas_map_set]; exact hh), List.map_map]
    apply List.map_congr_left
    intro kv _
    by_cases hk : kv.1 = ref
    · simp [hk]
    · simp [beq_eq_false_iff_ne.2 hk, hk]
  | false =>
    rw [hset_of_not_hhas h ref a hh, hset_of_not_hhas h ref b hh,
      hset_of_hhas _ ref b (by rw [hhas_append_single, hh]; simp),
      List.map_append, mapSetHeapId h ref b hh]
    simp

theorem rget_foldl_set (g : Val → Val) (entries : Record) (init : Record) (k : String) :
    rget (entries.foldl (fun d kv => rset d kv.1 (g kv.2)) init) k =
      match rget entries.reverse k with
      | some v => some (g v)
      | none => rget init k := by
  induction entries generalizing init with
  | nil => rfl
  | cons kv rest ih =>
    rw [List.foldl_cons, ih, List.reverse_cons, rget_append_single]
    cases hr : rget rest.reverse k with
    | some w => rfl
    | none =>
      rw [rget_rset]
      by_cases hk : k = kv.1
      · rw [if_pos hk, if_pos hk]
      · rw [if_neg hk, if_neg hk]

theorem rget_mergeFields (patch obj : Record) (k : String) :
    rget (mergeFields patch obj) k =
      match rget patch.reverse k with
      | some v => some v
      | none => rget obj k := by
  have h := rget_foldl_set id patch obj k
  simp only [id] at h
  unfold mergeFields
  rw [h]

theorem rget_formatOut (env : FnEnv) (obj : Record) (st : Option Nat) (k : String) :
    rget (formatOut env obj st) k =
      match rget obj.reverse k with
      | some v => some (evalVal env obj v)
      | none =>
        match st with
        | some n => if k = "id" then some (Val.num n) else none
        | none => none := by
  unfold formatOut
  rw [rget_foldl_set]
  cases hr : rget obj.reverse k with
  | some w => rfl
  | none =>
    cases st with
    | some n =>
      by_cases hk : k = "id"
      · subst hk; simp [rget_cons]
      · have h4 : "id" ≠ k := fun hh => hk hh.symm
        simp [rget_cons, rget, h4, hk]
    | none => rfl

theorem rhas_reverse (r : Record) (k : String) : rhas r.reverse k = rhas r k := by
  unfold rhas
  rw [List.any_reverse]

theorem rget_reverse_rset_self (r : Record) (k : String) (v : Val) :
    rget (rset r k v).reverse k = some v := by
  cases hh : rhas r k with
  | true =>
    rw [rset_of_rhas r k v hh, ← List.map_reverse, rget_map_set, if_pos rfl,
      rhas_reverse, hh]
    simp
  | false =>
    rw [rset_of_not_rhas r k v hh, List.reverse_append]
    simp [rget_cons]

theorem rget_reverse_rset_ne (r : Record) (k k2 : String) (v : Val) (hne : k2 ≠ k) :
    rget (rset r k v).reverse k2 = rget r.reverse k2 := by
  cases hh : rhas r k with
  | true => rw [rset_of_rhas r k v hh, ← List.map_reverse, rget_map_set, if_neg hne]
  | false =>
    rw [rset_of_not_rhas r k v hh, List.reverse_append]
    simp [rget_cons, Ne.symm hne]

theorem dset_of_dhas (d : Dict) (k ref : Nat) (hh : dhas d k = true) :
    dset d k ref = d.map (fun kv => if kv.1 == k then (k, ref) else kv) := by
  unfold dset
  rw [if_pos hh]

theorem dset_of_not_dhas (d : Dict) (k ref : Nat) (hh : dhas d k = false) :
    dset d k ref = d ++ [(k, ref)] := by
  unfold dset
  rw [if_neg (by simp [hh])]

theorem dlookup_cons (kv : Nat × Nat) (d : Dict) (k : Nat) :
    dlookup (kv :: d) k = if kv.1 = k then some kv.2 else dlookup d k := by
  by_cases hk : kv.1 = k
  · simp [dlookup, List.find?_cons, beq_iff_eq.2 hk, hk]
  · simp [dlookup, List.find?_cons, beq_eq_false_iff_ne.2 hk, hk]

theorem dhas_cons (kv : Nat × Nat) (d : Dict) (k : Nat) :
    dhas (kv :: d) k = (kv.1 == k || dhas d k) := by
  simp [dhas, List.any_cons]

theorem dhas_eq_isSome (d : Dict) (k : Nat) : dhas d k = (dlookup d k).isSome := by
  induction d with
  | nil => rfl
  | cons kv d ih =>
    rw [dhas_cons, dlookup_cons]
    by_cases h : kv.1 = k
    · simp [h]
    · simp only [beq_eq_false_iff_ne.2 h, Bool.false_or, if_neg h]
      exact ih

theorem dlookup_map_set (d : Dict) (k q ref : Nat) :
    dlookup (d.map (fun kv => if kv.1 == k then (k, ref) else kv)) q =
      if q = k then (if dhas d k then some ref else none) else dlookup d q := by
  induction d with
  | nil => by_cases h : q = k <;> simp [dlookup, dhas, h]
  | cons kv d ih =>
    rw [List.map_cons]
    simp only [beq_iff_eq] at ih ⊢
    by_cases hk : kv.1 = k
    · by_cases h2 : q = k
      · subst h2
        simp [dlookup_cons, dhas_cons, hk, ih]
      · have h4 : k ≠ q := fun h => h2 h.symm
        simp [dlookup_cons, dhas_cons, hk, h4, h2, ih]
    · by_cases h2 : q = k
      · subst h2
        simp [dlookup_cons, dhas_cons, hk, ih]
      · by_cases h3 : kv.1 = q
        · simp [dlookup_cons, dhas_cons, hk, h3, h2, ih]
        · simp [dlookup_cons, dhas_cons, hk, h3, h2, ih]

theorem dlookup_append_single (d : Dict) (k q ref : Nat) :
    dlookup (d ++ [(k, ref)]) q =
      match dlookup d q with
      | some w => some w
      | none => if q = k then some ref else none := by
  induction d with
  | nil =>
    by_cases h : q = k
    · simp [dlookup_cons, dlookup, h]
    · have h4 : k ≠ q := fun hh => h hh.symm
      simp [dlookup_cons, dlookup, h4, h]
  | cons kv d ih =>
    rw [List.cons_append]
    by_cases h3 : kv.1 = q
    · simp [dlookup_cons, h3]
    · simp [dlookup_cons, h3, ih]

theorem dlookup_dset_self (d : Dict) (k ref : Nat) :
    dlookup (dset d k ref) k = some ref := by
  cases hh : dhas d k with
  | true => rw [dset_of_dhas d k ref hh, dlookup_map_set, if_pos rfl, hh]; rfl
  | false =>
    rw [dset_of_not_dhas d k ref hh, dlookup_append_single]
    have hn : dlookup d k = none := by
      have hs := dhas_eq_isSome d k
      rcases hr : dlookup d k with _ | w
      · rfl
      · rw [hr, hh] at hs
        simp at hs
    rw [hn, if_pos rfl]

theorem dlookup_dset_ne (d : Dict) (k q ref : Nat) (hne : q ≠ k) :
    dlookup (dset d k ref) q = dlookup d q := by
  cases hh : dhas d k with
  | true => rw [dset_of_dhas d k ref hh, dlookup_map_set, if_neg hne]
  | false =>
    rw [dset_of_not_dhas d k ref hh, dlookup_append_single]
    cases hr : dlookup d q with
    | some w => rfl
    | none => rw [if_neg hne]

theorem dhas_dset (d : Dict) (k q ref : Nat) :
    dhas (dset d k ref) q = (q == k || dhas d q) := by
  rw [dhas_eq_isSome]
  by_cases h2 : q = k
  · subst h2
    rw [dlookup_dset_self]
    simp
  · rw [dlookup_dset_ne d k q ref h2, beq_eq_false_iff_ne.2 h2, Bool.false_or,
      dhas_eq_isSome]

/-! Characterizations of the Collection operations. -/

/-- The record stored by `format` when it stamps, as a function of arguments. -/
def stampRec (r : Record) (k : Nat) (stamp : Bool) : Record :=
  if stamp then rset r "id" (Val.num k) else r

def stampOpt (k : Nat) (stamp : Bool) : Option Nat :=
  if stamp then some k else none

theorem getCore_eq (env : FnEnv) (c : Collection) (k ref : Nat) (stamp : Bool)
    (hm : dlookup c.data k = some ref) :
    Collection.getCore env c k stamp =
      (formatOut env (stampRec (hget c.heap ref) k stamp) (stampOpt k stamp),
       { c with heap := hset c.heap ref (stampRec (hget c.heap ref) k stamp) }) := by
  unfold Collection.getCore stampRec stampOpt
  rw [hm]

theorem getCore_head (env : FnEnv) (c : Collection) (k : Nat) (st : Bool) :
    (Collection.getCore env c k st).2.head = c.head := by
  unfold Collection.getCore
  cases hd : dlookup c.data k with
  | none => rfl
  | some ref => rfl

theorem getCore_index (env : FnEnv) (c : Collection) (k : Nat) (st : Bool) :
    (Collection.getCore env c k st).2.index = c.index := by
  unfold Collection.getCore
  cases hd : dlookup c.data k with
  | none => rfl
  | some ref => rfl

theorem getCore_data (env : FnEnv) (c : Collection) (k : Nat) (st : Bool) :
    (Collection.getCore env c k st).2.data = c.data := by
  unfold Collection.getCore
  cases hd : dlookup c.data k with
  | none => rfl
  | some ref => rfl

theorem get_head (env : FnEnv) (c : Collection) (id : Nat) :
    (Collection.get env c id).2.head = c.head := by
  unfold Collection.get
  split
  · exact getCore_head env c id (id != 0)
  · rfl

theorem get_index (env : FnEnv) (c : Collection) (id : Nat) :
    (Collection.get env c id).2.index = c.index := by
  unfold Collection.get
  split
  · exact getCore_index env c id (id != 0)
  · rfl

theorem get_data (env : FnEnv) (c : Collection) (id : Nat) :
    (Collection.get env c id).2.data = c.data := by
  unfold Collection.get
  split
  · exact getCore_data env c id (id != 0)
  · rfl

theorem add_head (env : FnEnv) (c : Collection) (r : Record) :
    (Collection.add env c r).2.head = c.index c.head := by
  unfold Collection.add
  rw [get_head]

theorem add_index (env : FnEnv) (c : Collection) (r : Record) :
    (Collection.add env c r).2.index = c.index := by
  unfold Collection.add
  rw [get_index]

theorem remove_head (c : Collection) (id : Option Nat) :
    (Collection.remove c id).head = c.head := by
  unfold Collection.remove
  cases id <;> rfl

theorem remove_index (c : Collection) (id : Option Nat) :
    (Collection.remove c id).index = c.index := by
  unfold Collection.remove
  cases id <;> rfl

theorem updateCore_eq (env : FnEnv) (c : Collection) (k ref : Nat) (stamp : Bool)
    (patch : Record) (hm : dlookup c.data k = some ref) :
    Collection.updateCore env c k stamp patch =
      (formatOut env (stampRec (mergeFields patch (hget c.heap ref)) k stamp)
         (stampOpt k stamp),
       { c with heap := hset c.heap ref (stampRec (mergeFields patch (hget c.heap ref)) k stamp) }) := by
  unfold Collection.updateCore
  rw [hm]
  show Collection.getCore env
      { c with heap := hset c.heap ref (mergeFields patch (hget c.heap ref)) } k stamp = _
  rw [getCore_eq env
      { c with heap := hset c.heap ref (mergeFields patch (hget c.heap ref)) }
      k ref stamp hm]
  rw [show ({ c with heap := hset c.heap ref (mergeFields patch (hget c.heap ref)) } : Collection).heap
      = hset c.heap ref (mergeFields patch (hget c.heap ref)) from rfl]
  rw [hget_hset, hset_hset]

theorem updateCore_data (env : FnEnv) (c : Collection) (k : Nat) (stamp : Bool)
    (patch : Record) :
    (Collection.updateCore env c k stamp patch).2.data = c.data := by
  unfold Collection.updateCore
  cases hd : dlookup c.data k with
  | none => rfl
  | some ref =>
    show (Collection.getCore env
      { c with heap := hset c.heap ref (mergeFields patch (hget c.heap ref)) } k stamp).2.data = c.data
    exact getCore_data env _ k stamp

theorem update_eq_of_mem (env : FnEnv) (c : Collection) (id : Nat) (patch : Record)
    (hm : dhas c.data id = true) :
    Collection.update env c id patch =
      Except.ok (Collection.updateCore env c id (id != 0) patch) := by
  unfold Collection.update
  rw [if_pos hm]

theorem update_eq_of_not_mem (env : FnEnv) (c : Collection) (id : Nat) (patch : Record)
    (hm : dhas c.data id = false) :
    Collection.update env c id patch =
      Except.error (JsErr.plain ("Specified id `" ++ Nat.repr id ++ "` not in collection.")) := by
  unfold Collection.update
  rw [if_neg (by simp [hm])]
  rfl

/-! The Identifier Codec (claim C9). -/

/-- No position in the character list starts a `/<digits>` match (the
condition tested at each step of the regex search). -/
def slashDigitFree : List Char → Bool
  | [] => true
  | c :: rest => !(c == '/' && !(rest.takeWhile Char.isDigit).isEmpty) && slashDigitFree rest

theorem takeWhile_all_append (p : Char → Bool) (ds suf : List Char)
    (h : ds.all p = true) :
    (ds ++ suf).takeWhile p = ds ++ suf.takeWhile p := by
  induction ds with
  | nil => rfl
  | cons d ds ih =>
    rw [List.all_cons, Bool.and_eq_true] at h
    rw [List.cons_append, List.takeWhile_cons, if_pos h.1, ih h.2, List.cons_append]

theorem findIdSeg_eq_none (cs : List Char) (h : slashDigitFree cs = true) :
    findIdSeg cs = none := by
  induction cs with
  | nil => rfl
  | cons c rest ih =>
    unfold slashDigitFree at h
    rw [Bool.and_eq_true, Bool.not_eq_true'] at h
    unfold findIdSeg
    rw [if_neg, ih h.2]
    · rfl
    · intro hc
      rw [Bool.and_eq_false_iff] at h
      rcases h.1 with h1 | h1
      · rw [beq_eq_false_iff_ne] at h1
        exact h1 hc.1
      · have h2 : (List.takeWhile Char.isDigit rest).isEmpty = true := by simpa using h1
        rw [List.isEmpty_iff] at h2
        exact hc.2 h2

theorem findIdSeg_eq_match (pre ds suf : List Char) (hpre : slashDigitFree pre = true)
    (hds : ds ≠ []) (hall : ds.all Char.isDigit = true)
    (hsuf : suf.takeWhile Char.isDigit = []) :
    findIdSeg (pre ++ '/' :: (ds ++ suf)) = some (pre, ds, suf) := by
  induction pre with
  | nil =>
    rw [List.nil_append]
    unfold findIdSeg
    rw [takeWhile_all_append Char.isDigit ds suf hall, hsuf, List.append_nil,
      if_pos ⟨rfl, hds⟩, List.drop_left]
  | cons c pre ih =>
    unfold slashDigitFree at hpre
    rw [Bool.and_eq_true, Bool.not_eq_true'] at hpre
    rw [List.cons_append]
    unfold findIdSeg
    rw [if_neg, ih hpre.2]
    · rfl
    · intro hc
      rw [Bool.and_eq_false_iff] at hpre
      rcases hpre.1 with h1 | h1
      · rw [beq_eq_false_iff_ne] at h1
        exact h1 hc.1
      · have h2 : List.takeWhile Char.isDigit pre = [] := by
          rw [← List.isEmpty_iff]
          simpa using h1
        -- the char after this '/' is the head of `pre ++ '/' :: ...`; by hpre it is
        -- not a digit, so the greedy digit run there is empty
        cases pre with
        | nil =>
          rw [List.nil_append] at hc
          simp [List.takeWhile_cons] at hc
        | cons b pre2 =>
          rw [List.cons_append, List.takeWhile_cons] at hc
          rcases hb : Char.isDigit b with _ | _
          · rw [if_neg (by simp [hb])] at hc
            exact hc.2 rfl
          · rw [List.takeWhile_cons, if_pos hb] at h2
            cases h2

/-- C9: for every input path, `normalize` finds the first run of digits
immediately preceded by '/': if one exists it returns that run numerically
cast as the id and replaces that matched segment by the literal `:id`,
leaving later numeric segments verbatim; if none exists it returns a null id
and the unchanged path. -/
theorem c9_normalize_codec :
    (∀ url : String, slashDigitFree url.data = true →
      normalize url = { id := none, endpoint := url })
    ∧ (∀ pre ds suf : List Char, slashDigitFree pre = true → ds ≠ [] →
        ds.all Char.isDigit = true → suf.takeWhile Char.isDigit = [] →
        normalize (String.mk (pre ++ '/' :: (ds ++ suf))) =
          { id := some (digitsToNat ds)
            endpoint := String.mk (pre ++ ('/' :: ':' :: 'i' :: 'd' :: suf)) }) := by
  constructor
  · intro url h
    unfold normalize
    rw [findIdSeg_eq_none url.data h]
  · intro pre ds suf hpre hds hall hsuf
    unfold normalize
    rw [show (String.mk (pre ++ '/' :: (ds ++ suf))).data = pre ++ '/' :: (ds ++ suf)
      from rfl]
    rw [findIdSeg_eq_match pre ds suf hpre hds hall hsuf]

/-- Witness for C9 at the concrete paths "/p/42/x" and "/posts". -/
theorem c9_normalize_codec_witness :
    normalize (String.mk ['/', 'p', '/', '4', '2', '/', 'x'])
        = { id := some 42, endpoint := String.mk ['/', 'p', '/', ':', 'i', 'd', '/', 'x'] }
    ∧ normalize "/posts" = { id := none, endpoint := "/posts" } := by
  constructor
  · have h := c9_normalize_codec.2 ['/', 'p'] ['4', '2'] ['/', 'x'] (by decide) (by decide)
      (by decide) (by decide)
    exact h.trans (by decide)
  · exact c9_normalize_codec.1 "/posts" (by decide)

/-! Operation traces over a Collection (claim C3). -/

inductive COp where
  | add (r : Record)
  | removeOp (id : Nat)

/-- Run a trace of `add`/`remove` calls, collecting the identifier assigned by
each `add` (the value of `head` right after the call). -/
def runOps (env : FnEnv) : Collection → List COp → Collection × List Nat
  | c, [] => (c, [])
  | c, COp.add r :: ops =>
    let c1 := (Collection.add env c r).2
    let rest := runOps env c1 ops
    (rest.1, c1.head :: rest.2)
  | c, COp.removeOp i :: ops => runOps env (c.remove (some i)) ops

def countAdds : List COp → Nat
  | [] => 0
  | COp.add _ :: ops => countAdds ops + 1
  | COp.removeOp _ :: ops => countAdds ops

theorem serverIndex_eq (n : Nat) : serverIndex n = n + 1 := by
  unfold serverIndex
  by_cases h : n = 0
  · simp [h]
  · simp [h]

theorem foldl_seed_head (refs : List Nat) (d : Dict) (h0 : Nat) :
    (refs.foldl (fun st ref => let h := serverIndex st.2; (dset st.1 h ref, h))
      (d, h0)).2 = h0 + refs.length := by
  induction refs generalizing d h0 with
  | nil => simp
  | cons r refs ih =>
    rw [List.foldl_cons]
    show ((refs.foldl (fun st ref => let h := serverIndex st.2; (dset st.1 h ref, h))
      (dset d (serverIndex h0) r, serverIndex h0))).2 = h0 + (refs.length + 1)
    rw [ih, serverIndex_eq]
    omega

theorem build_head (name : String) (seed : List Record) :
    (Collection.build name seed serverIndex).head = seed.length := by
  unfold Collection.build
  show ((List.range seed.length).foldl
      (fun st ref => let h := serverIndex st.2; (dset st.1 h ref, h)) ([], 0)).2
    = seed.length
  rw [foldl_seed_head, List.length_range]
  omega

theorem runOps_ids (env : FnEnv) (ops : List COp) :
    ∀ c : Collection, c.index = serverIndex →
      (runOps env c ops).2 = List.range' (c.head + 1) (countAdds ops) := by
  induction ops with
  | nil => intro c hc; rfl
  | cons op ops ih =>
    intro c hc
    cases op with
    | add r =>
      have hh : (Collection.add env c r).2.head = c.head + 1 := by
        rw [add_head, hc, serverIndex_eq]
      have hi : (Collection.add env c r).2.index = serverIndex := by
        rw [add_index, hc]
      show ((Collection.add env c r).2.head ::
          (runOps env (Collection.add env c r).2 ops).2)
        = List.range' (c.head + 1) (countAdds (COp.add r :: ops))
      rw [ih _ hi, hh,
        show countAdds (COp.add r :: ops) = countAdds ops + 1 from rfl,
        List.range'_succ]
    | removeOp i =>
      show (runOps env (c.remove (some i)) ops).2
        = List.range' (c.head + 1) (countAdds (COp.removeOp i :: ops))
      rw [ih _ (by rw [remove_index, hc]), remove_head]
      rfl

/-- C3: a Collection seeded with N records through the default `Server.index`
starts its identifier counter at N, and across any interleaving of `add` and
`remove` calls the assigned identifiers are exactly N+1, N+2, ... — strictly
increasing, never reused even after deletions, each one more than the largest
identifier assigned so far. -/
theorem c3_identifier_monotonicity (env : FnEnv) (name : String) (seed : List Record)
    (ops : List COp) :
    (Collection.build name seed serverIndex).head = seed.length
    ∧ (runOps env (Collection.build name seed serverIndex) ops).2
        = List.range' (seed.length + 1) (countAdds ops)
    ∧ (runOps env (Collection.build name seed serverIndex) ops).2.Pairwise (· < ·)
    ∧ ∀ i ∈ (runOps env (Collection.build name seed serverIndex) ops).2,
        seed.length < i := by
  have hids := runOps_ids env ops (Collection.build name seed serverIndex) rfl
  rw [build_head] at hids
  refine ⟨build_head name seed, hids, ?_, ?_⟩
  · rw [hids]
    exact List.pairwise_lt_range' (seed.length + 1) (countAdds ops)
  · intro i hi
    rw [hids] at hi
    have := (List.mem_range'_1.1 hi).1
    omega

/-- A concrete computed-field environment for witnesses. -/
def env0 : FnEnv := fun _ _ => Val.null

def c3Seed : List Record :=
  [[("title", Val.str "Foo")], [("title", Val.str "Bar")]]

def c3Ops : List COp :=
  [COp.add [("title", Val.str "Baz")], COp.removeOp 1,
   COp.add [("title", Val.str "Qux")]]

/-- Witness for C3: seeding two records starts the counter at 2, and an
add/remove/add trace assigns ids 3 and 4. -/
theorem c3_identifier_monotonicity_witness :
    (Collection.build "posts" c3Seed serverIndex).head = 2
    ∧ (runOps env0 (Collection.build "posts" c3Seed serverIndex) c3Ops).2 = [3, 4] := by
  have h := c3_identifier_monotonicity env0 "posts" c3Seed c3Ops
  refine ⟨h.1, ?_⟩
  rw [h.2.1]
  rfl

/-! Claim C2: what `reset()` actually does on a Collection. -/

def c2Seed : List Record := [[("title", Val.str "Foo")]]

def c2Before : Collection := Collection.build "posts" c2Seed serverIndex

/-- The collection after `update(1, {title: 'X'})` followed by `reset()`. -/
def c2After : Collection :=
  match Collection.update env0 c2Before 1 [("title", Val.str "X")] with
  | Except.ok rc => rc.2.reset
  | Except.error _ => c2Before

/-- C2 (code bug, evaluated at the failing input): after one `update`,
`reset()` does not restore the seeded snapshot.  The stored record still
holds the updated field values (`backup` holds the very record objects that
`update` mutated in place, and the proxy set trap diverts the
`this.data = _.clone(this.backup)` assignment into a junk "data" property),
`data`'s numeric keys are untouched; only the identifier counter is restored,
and a second reset changes nothing further. -/
theorem c2_reset_code_bug :
    c2After.head = c2Before.backupIndex
    ∧ c2After.extra = ["data"]
    ∧ c2After.data = [(1, 0)]
    ∧ hget c2After.heap 0 = [("title", Val.str "X"), ("id", Val.num 1)]
    ∧ hget c2Before.heap 0 = [("title", Val.str "Foo")]
    ∧ c2After.reset = c2After := by
  exact ⟨rfl, rfl, rfl, rfl, rfl, rfl⟩

/-! Claim C7: Collection.update. -/

def c7Coll : Collection :=
  Collection.build "authors"
    [[("name", Val.str "Jane"), ("email", Val.str "jane@doe.com")]] serverIndex

def isNotFoundEnvelope : JsErr → Bool
  | JsErr.envelope 404 _ => true
  | _ => false

/-- C7 counterexample: `update` on an id absent from the store throws a bare
`Error` (no status field), not the 404 `NotFound` envelope of src/errors.js
that the claim names. -/
theorem c7_update_counterexample :
    (match Collection.update env0 c7Coll 5 [("name", Val.str "X")] with
     | Except.error e => isNotFoundEnvelope e
     | Except.ok _ => true) = false := by
  rfl

/-- C7 (amended): `update(id, patch)` on an absent id fails by throwing a
plain `Error` whose message names the id — not the 404 `NotFound` envelope;
on a present id it merges exactly the fields of `patch` into the stored
record (for a key of `patch` the last occurrence wins; fields not mentioned
keep their prior values) and returns `get(id)`, which additionally stamps the
record's `id` field with the numeric id. -/
theorem c7_update_amended (env : FnEnv) (c : Collection) (id : Nat) (patch : Record) :
    (dhas c.data id = false →
      Collection.update env c id patch =
        Except.error (JsErr.plain
          ("Specified id `" ++ Nat.repr id ++ "` not in collection.")))
    ∧ (∀ ref, dlookup c.data id = some ref → id ≠ 0 →
        Collection.update env c id patch =
          Except.ok
            (formatOut env
              (rset (mergeFields patch (hget c.heap ref)) "id" (Val.num id)) (some id),
             { c with heap := hset c.heap ref (rset (mergeFields patch (hget c.heap ref)) "id" (Val.num id)) })
        ∧ (∀ k v, rget patch.reverse k = some v →
            rget (mergeFields patch (hget c.heap ref)) k = some v)
        ∧ (∀ k, rhas patch k = false →
            rget (mergeFields patch (hget c.heap ref)) k = rget (hget c.heap ref) k)) := by
  constructor
  · intro hm
    exact update_eq_of_not_mem env c id patch hm
  · intro ref hm h0
    have hd : dhas c.data id = true := by rw [dhas_eq_isSome, hm]; rfl
    refine ⟨?_, ?_, ?_⟩
    · rw [update_eq_of_mem env c id patch hd,
        updateCore_eq env c id ref (id != 0) patch hm]
      have hst : (id != 0) = true := by simpa using h0
      rw [hst]
      simp [stampRec, stampOpt]
    · intro k v hkv
      rw [rget_mergeFields, hkv]
    · intro k hk
      have hrev : rget patch.reverse k = none := by
        have h1 : rhas patch.reverse k = false := by rw [rhas_reverse, hk]
        rw [rhas_eq_isSome] at h1
        rcases hr : rget patch.reverse k with _ | w
        · rfl
        · rw [hr] at h1
          simp at h1
      rw [rget_mergeFields, hrev]

/-- Witness for C7's amended statement at concrete inputs. -/
theorem c7_update_amended_witness :
    Collection.update env0 c7Coll 5 [] =
      Except.error (JsErr.plain "Specified id `5` not in collection.")
    ∧ rget (mergeFields [("name", Val.str "X")] (hget c7Coll.heap 0)) "email"
        = rget (hget c7Coll.heap 0) "email" := by
  constructor
  · exact (c7_update_amended env0 c7Coll 5 []).1 (by decide)
  · exact ((c7_update_amended env0 c7Coll 1 [("name", Val.str "X")]).2 0 (by decide)
      (by decide)).2.2 "email" (by decide)

/-! Claim C10: the read side effect of `get`. -/

def demoColl : Collection :=
  Collection.build "posts"
    [[("title", Val.str "Foo"), ("body", Val.str "foo bar")]] serverIndex

/-- C10: Collection reads are not side-effect free.  For a truthy numeric id
present in the store, `get(id)` writes the numeric id into the stored
record's own `id` field (through the shared heap), so the record then
satisfies `record.id === Number(id)`; repeating the `get` returns the same
value and leaves the store exactly unchanged. -/
theorem c10_get_stamps_id (env : FnEnv) (c : Collection) (id ref : Nat)
    (h0 : id ≠ 0) (hm : dlookup c.data id = some ref) :
    Collection.get env c id =
      (some (formatOut env (rset (hget c.heap ref) "id" (Val.num id)) (some id)),
       { c with heap := hset c.heap ref (rset (hget c.heap ref) "id" (Val.num id)) })
    ∧ rget (hget (hset c.heap ref (rset (hget c.heap ref) "id" (Val.num id))) ref) "id"
        = some (Val.num id)
    ∧ Collection.get env
        { c with heap := hset c.heap ref (rset (hget c.heap ref) "id" (Val.num id)) } id =
      (some (formatOut env (rset (hget c.heap ref) "id" (Val.num id)) (some id)),
       { c with heap := hset c.heap ref (rset (hget c.heap ref) "id" (Val.num id)) }) := by
  have hd : dhas c.data id = true := by rw [dhas_eq_isSome, hm]; rfl
  have hst : (id != 0) = true := by simpa using h0
  refine ⟨?_, ?_, ?_⟩
  · unfold Collection.get
    rw [if_pos hd, getCore_eq env c id ref (id != 0) hm, hst]
    simp [stampRec, stampOpt]
  · rw [hget_hset, rget_rset, if_pos rfl]
  · unfold Collection.get
    rw [if_pos (show dhas ({ c with heap := hset c.heap ref (rset (hget c.heap ref) "id" (Val.num id)) } : Collection).data id = true from hd)]
    rw [getCore_eq env _ id ref (id != 0)
      (show dlookup ({ c with heap := hset c.heap ref (rset (hget c.heap ref) "id" (Val.num id)) } : Collection).data id = some ref from hm)]
    rw [hst]
    simp only [stampRec, stampOpt, if_pos]
    rw [hget_hset, rset_rset_same, hset_hset]

/-- Witness for C10: after reading record 1, the stored record's `id` field
holds the numeric 1. -/
theorem c10_get_stamps_id_witness :
    rget (hget (Collection.get env0 demoColl 1).2.heap 0) "id" = some (Val.num 1) := by
  have h := c10_get_stamps_id env0 demoColl 1 0 (by decide) (by decide)
  rw [h.1]
  exact h.2.1

/-! Database helpers for the binder claims. -/

theorem dbColl_cons (kv : String × Store) (db : Db) (m : String) :
    dbColl (kv :: db) m =
      if kv.1 = m then
        (match kv.2 with
         | Store.coll c => some c
         | Store.single _ => none)
      else dbColl db m := by
  obtain ⟨k, st⟩ := kv
  by_cases h : k = m
  · cases st <;> simp [dbColl, List.find?_cons, beq_iff_eq.2 h, h]
  · cases st <;> simp [dbColl, List.find?_cons, beq_eq_false_iff_ne.2 h, h]

theorem dbSetColl_cons (kv : String × Store) (db : Db) (m : String) (c : Collection) :
    dbSetColl (kv :: db) m c =
      (if kv.1 = m then (m, Store.coll c) else kv) :: dbSetColl db m c := by
  by_cases h : kv.1 = m
  · simp [dbSetColl, beq_iff_eq.2 h, h]
  · simp [dbSetColl, beq_eq_false_iff_ne.2 h, h]

theorem dbColl_dbSetColl_ne (db : Db) (m m2 : String) (c : Collection)
    (hne : m2 ≠ m) : dbColl (dbSetColl db m c) m2 = dbColl db m2 := by
  induction db with
  | nil => rfl
  | cons kv db ih =>
    rw [dbSetColl_cons]
    by_cases hk : kv.1 = m
    · rw [if_pos hk, dbColl_cons, dbColl_cons,
        if_neg (show ¬ ((m, Store.coll c) : String × Store).1 = m2 from fun h => hne h.symm),
        if_neg (show ¬ kv.1 = m2 from fun h => hne (h.symm.trans hk))]
      exact ih
    · rw [if_neg hk, dbColl_cons, dbColl_cons]
      by_cases h2 : kv.1 = m2
      · rw [if_pos h2, if_pos h2]
      · rw [if_neg h2, if_neg h2]
        exact ih

theorem dbColl_dbSetColl_self (db : Db) (m : String) (c0 c : Collection)
    (hp : dbColl db m = some c0) : dbColl (dbSetColl db m c) m = some c := by
  induction db with
  | nil => cases hp
  | cons kv db ih =>
    rw [dbColl_cons] at hp
    rw [dbSetColl_cons]
    by_cases hk : kv.1 = m
    · rw [if_pos hk, dbColl_cons, if_pos rfl]
    · rw [if_neg hk] at hp
      rw [if_neg hk, dbColl_cons, if_neg hk]
      exact ih hp

/-! Claim C8: the unlink semantics of model.delete. -/

/-- C8: on a model endpoint bound with relation and key, `delete(id)` (id
present in the relation store) sets the relation record's `key` field to null
(and stamps its `id` on the read-back), changes no other record and no store
keys, and leaves the target model's store exactly unchanged; without a
relation, `delete(id)` permanently removes the record with that id from the
model's store and touches nothing else. -/
theorem c8_unlink_frame (opts : Options) (env : FnEnv) (db : Db) (n ref : Nat)
    (rn k : String) (rc : Collection)
    (hrel : opts.relation = some rn) (hkey : opts.key = some k)
    (hrn : rn ≠ "") (hk : k ≠ "") (h0 : n ≠ 0) (hmodel : opts.model ≠ rn)
    (hrc : dbColl db rn = some rc) (hmem : dlookup rc.data n = some ref) :
    ((modelDelete opts env (some n) db).1 = HRes.ok none
     ∧ dbColl (modelDelete opts env (some n) db).2 opts.model = dbColl db opts.model
     ∧ ∃ rc1, dbColl (modelDelete opts env (some n) db).2 rn = some rc1
        ∧ rc1.data = rc.data
        ∧ hget rc1.heap ref = rset (rset (hget rc.heap ref) k Val.null) "id" (Val.num n)
        ∧ (∀ r2, r2 ≠ ref → hget rc1.heap r2 = hget rc.heap r2))
    ∧ (∀ mopts : Options, ∀ mdb : Db, ∀ mc : Collection, ∀ mid : Nat,
        (idTruthy (some mid) && optTruthy mopts.relation && optTruthy mopts.key) = false →
        dbColl mdb mopts.model = some mc →
        modelDelete mopts env (some mid) mdb =
          (HRes.ok none, dbSetColl mdb mopts.model
            { mc with data := mc.data.filter (fun kv => kv.1 != mid) })) := by
  constructor
  · have hd : dhas rc.data n = true := by rw [dhas_eq_isSome, hmem]; rfl
    have hst : (n != 0) = true := by simpa using h0
    have hguard : (idTruthy (some n) && optTruthy opts.relation && optTruthy opts.key) = true := by
      rw [hrel, hkey]
      simp [idTruthy, optTruthy, h0, hrn, hk]
    have heq : modelDelete opts env (some n) db =
        (HRes.ok none, dbSetColl db rn
          { rc with heap := hset rc.heap ref (rset (rset (hget rc.heap ref) k Val.null) "id" (Val.num n)) }) := by
      unfold modelDelete
      rw [hguard, if_pos rfl, hrel]
      show ((match dbColl db rn with
        | none => (HRes.thrown typeError, db)
        | some rc =>
          match Collection.update env rc n [(opts.key.getD "", Val.null)] with
          | Except.error e => (HRes.thrown e, db)
          | Except.ok rr => (HRes.ok none, dbSetColl db rn rr.2)) : HRes × Db) = _
      rw [hrc, hkey]
      show ((match Collection.update env rc n [(k, Val.null)] with
        | Except.error e => (HRes.thrown e, db)
        | Except.ok rr => (HRes.ok none, dbSetColl db rn rr.2)) : HRes × Db) = _
      rw [update_eq_of_mem env rc n [(k, Val.null)] hd,
        updateCore_eq env rc n ref (n != 0) [(k, Val.null)] hmem, hst]
      show (HRes.ok none, dbSetColl db rn
        { rc with heap := hset rc.heap ref (stampRec (mergeFields [(k, Val.null)] (hget rc.heap ref)) n true) }) = _
      rw [show stampRec (mergeFields [(k, Val.null)] (hget rc.heap ref)) n true
          = rset (rset (hget rc.heap ref) k Val.null) "id" (Val.num n) from rfl]
    rw [heq]
    refine ⟨rfl, ?_, ?_⟩
    · exact dbColl_dbSetColl_ne db rn opts.model _ hmodel
    · refine ⟨_, dbColl_dbSetColl_self db rn rc _ hrc, rfl, ?_, ?_⟩
      · rw [show ({ rc with heap := hset rc.heap ref (rset (rset (hget rc.heap ref) k Val.null) "id" (Val.num n)) } : Collection).heap = hset rc.heap ref (rset (rset (hget rc.heap ref) k Val.null) "id" (Val.num n)) from rfl]
        rw [hget_hset]
      · intro r2 hr2
        rw [show ({ rc with heap := hset rc.heap ref (rset (rset (hget rc.heap ref) k Val.null) "id" (Val.num n)) } : Collection).heap = hset rc.heap ref (rset (rset (hget rc.heap ref) k Val.null) "id" (Val.num n)) from rfl]
        exact hget_hset_ne rc.heap ref r2 _ hr2
  · intro mopts mdb mc mid hguard hmc
    unfold modelDelete
    rw [hguard]
    simp only [Bool.false_eq_true, if_neg]
    rw [hmc]
    rfl

/-! Claim C4: the collection binder's put handler. -/

theorem rget_reverse_mergeFields (p o : Record) (k : String) :
    rget (mergeFields p o).reverse k =
      match rget p.reverse k with
      | some v => some v
      | none => rget o.reverse k := by
  induction p generalizing o with
  | nil => rfl
  | cons kv rest ih =>
    show rget (mergeFields rest (rset o kv.1 kv.2)).reverse k = _
    rw [ih, List.reverse_cons, rget_append_single]
    cases hr : rget rest.reverse k with
    | some w => rfl
    | none =>
      by_cases hk : k = kv.1
      · subst hk
        rw [rget_reverse_rset_self, if_pos rfl]
      · rw [rget_reverse_rset_ne o kv.1 k kv.2 hk, if_neg hk]

theorem valKeyLookup_dlookup (v : Val) (d : Dict) (kt : Nat × Bool)
    (h : valKeyLookup v d = some kt) : ∃ ref, dlookup d kt.1 = some ref := by
  cases v with
  | num n =>
    simp only [valKeyLookup] at h
    by_cases hd : dhas d n
    · rw [if_pos hd] at h
      have hk : kt.1 = n := by
        cases h
        rfl
      rw [hk]
      rw [dhas_eq_isSome] at hd
      rcases hr : dlookup d n with _ | ref
      · rw [hr] at hd
        cases hd
      · exact ⟨ref, rfl⟩
    · rw [if_neg hd] at h
      cases h
  | str sv =>
    simp only [valKeyLookup] at h
    rcases hf : d.find? (fun kv => Nat.repr kv.1 == sv) with _ | kv
    · rw [hf] at h
      cases h
    · rw [hf] at h
      have hk : kt.1 = kv.1 := by
        cases h
        rfl
      have hmem := List.mem_of_find?_eq_some hf
      have hd : dhas d kv.1 = true := by
        unfold dhas
        rw [List.any_eq_true]
        exact ⟨kv, hmem, by simp⟩
      rw [hk]
      rw [dhas_eq_isSome] at hd
      rcases hr : dlookup d kv.1 with _ | ref
      · rw [hr] at hd
        cases hd
      · exact ⟨ref, rfl⟩
  | null => simp [valKeyLookup] at h
  | undef => simp [valKeyLookup] at h
  | fn fid => simp [valKeyLookup] at h
  | obj fields => simp [valKeyLookup] at h

theorem valKeyLookup_num (n : Nat) (d : Dict) (kt : Nat × Bool)
    (h : valKeyLookup (Val.num n) d = some kt) : kt = (n, n != 0) := by
  simp only [valKeyLookup] at h
  by_cases hd : dhas d n
  · rw [if_pos hd] at h
    cases h
    rfl
  · rw [if_neg hd] at h
    cases h

theorem updateV_eq_some (env : FnEnv) (c : Collection) (v : Val) (patch : Record)
    (kt : Nat × Bool) (h : valKeyLookup v c.data = some kt) :
    Collection.updateV env c v patch = Except.ok (c.updateCore env kt.1 kt.2 patch) := by
  unfold Collection.updateV
  rw [h]

theorem processPutItem_eq (opts : Options) (env : FnEnv) (n : Nat) (item : Record)
    (c : Collection) :
    processPutItem opts env n item c =
      match Collection.updateV env c
          ((rget (rset item (opts.key.getD "") (Val.num n)) "id").getD Val.undef)
          (rset item (opts.key.getD "") (Val.num n)) with
      | Except.error e => (Except.error e, c)
      | Except.ok rc => (Except.ok (omitKeys rc.1 opts.exclude), rc.2) := rfl

theorem updateV_eq_none (env : FnEnv) (c : Collection) (v : Val) (patch : Record)
    (h : valKeyLookup v c.data = none) :
    ∃ m, Collection.updateV env c v patch = Except.error (JsErr.plain m) := by
  unfold Collection.updateV
  rw [h]
  exact ⟨_, rfl⟩

theorem processPutItem_ok (opts : Options) (env : FnEnv) (n : Nat) (item : Record)
    (c : Collection) (out : Record) (c1 : Collection)
    (h : processPutItem opts env n item c = (Except.ok out, c1)) :
    c1.data = c.data
    ∧ (∃ r0, out = omitKeys r0 opts.exclude)
    ∧ (∀ k, opts.key = some k → ¬ k ∈ opts.exclude → n ≠ 0 →
        rget out k = some (Val.num n)) := by
  rw [processPutItem_eq] at h
  rcases hlk : valKeyLookup
      ((rget (rset item (opts.key.getD "") (Val.num n)) "id").getD Val.undef) c.data
    with _ | kt
  · obtain ⟨m, hm⟩ := updateV_eq_none env c
      ((rget (rset item (opts.key.getD "") (Val.num n)) "id").getD Val.undef)
      (rset item (opts.key.getD "") (Val.num n)) hlk
    rw [hm] at h
    simp at h
  · rw [updateV_eq_some env c _ _ kt hlk] at h
    simp only [Prod.mk.injEq, Except.ok.injEq] at h
    obtain ⟨h1, h2⟩ := h
    obtain ⟨ref, href⟩ := valKeyLookup_dlookup _ c.data kt hlk
    constructor
    · rw [← h2, updateCore_data]
    constructor
    · exact ⟨_, h1.symm⟩
    · intro k hkey hkex h0
      rw [← h1, rget_omitKeys_not_mem _ _ _ hkex]
      rw [hkey] at hlk
      rw [hkey]
      simp only [Option.getD_some] at hlk ⊢
      rw [updateCore_eq env c kt.1 ref kt.2 _ href]
      rw [rget_formatOut]
      have hrev : rget (stampRec (mergeFields (rset item k (Val.num n))
          (hget c.heap ref)) kt.1 kt.2).reverse k = some (Val.num n) := by
        by_cases hkid : k = "id"
        · subst hkid
          have hv : (rget (rset item "id" (Val.num n)) "id").getD Val.undef
              = Val.num n := by
            rw [rget_rset, if_pos rfl]
            rfl
          rw [hv] at hlk
          have hkt := valKeyLookup_num n c.data kt hlk
          have hb : kt.2 = true := by
            rw [hkt]
            simpa using h0
          rw [hb]
          unfold stampRec
          rw [if_pos rfl, rget_reverse_rset_self, hkt]
        · cases hb : kt.2 with
          | true =>
            unfold stampRec
            rw [if_pos rfl, rget_reverse_rset_ne _ _ _ _ hkid,
              rget_reverse_mergeFields, rget_reverse_rset_self]
          | false =>
            unfold stampRec
            rw [if_neg (by simp), rget_reverse_mergeFields, rget_reverse_rset_self]
      rw [hrev]
      rfl

theorem processPutItems_ok (opts : Options) (env : FnEnv) (n : Nat) :
    ∀ (rs : List Record) (c : Collection) (outs : List Record) (c1 : Collection),
      processPutItems opts env n rs c = (Except.ok outs, c1) →
      c1.data = c.data ∧ outs.length = rs.length
      ∧ ∀ out ∈ outs,
          (∃ r0, out = omitKeys r0 opts.exclude)
          ∧ (∀ k, opts.key = some k → ¬ k ∈ opts.exclude → n ≠ 0 →
              rget out k = some (Val.num n)) := by
  intro rs
  induction rs with
  | nil =>
    intro c outs c1 h
    unfold processPutItems at h
    simp only [Prod.mk.injEq, Except.ok.injEq] at h
    obtain ⟨h1, h2⟩ := h
    subst h1
    subst h2
    refine ⟨rfl, rfl, ?_⟩
    intro out hout
    cases hout
  | cons r rs ih =>
    intro c outs c1 h
    unfold processPutItems at h
    rcases hp : processPutItem opts env n r c with ⟨res, cmid⟩
    rw [hp] at h
    cases res with
    | error e => simp at h
    | ok out0 =>
      rcases hrest : processPutItems opts env n rs cmid with ⟨res2, cend⟩
      have h2 : (match processPutItems opts env n rs cmid with
        | (Except.ok outs2, c2) => (Except.ok (out0 :: outs2), c2)
        | (Except.error e, c2) => (Except.error e, c2)) = (Except.ok outs, c1) := h
      clear h
      rw [hrest] at h2
      rename' h2 => h
      cases res2 with
      | error e => simp at h
      | ok outs2 =>
        simp only [Prod.mk.injEq, Except.ok.injEq] at h
        obtain ⟨h1, h2⟩ := h
        subst h1
        subst h2
        have hh := processPutItem_ok opts env n r c out0 cmid hp
        have ht := ih cmid outs2 cend hrest
        refine ⟨by rw [ht.1, hh.1], by simp [ht.2.1], ?_⟩
        intro out hout
        rcases List.mem_cons.1 hout with hcase | hcase
        · subst hcase
          exact ⟨hh.2.1, hh.2.2⟩
        · exact ht.2.2 out hcase

theorem collectionPut_obj (opts : Options) (env : FnEnv) (r : Record)
    (id : Option Nat) (db : Db) :
    collectionPut opts env (JData.obj r) id db = (HRes.ok none, db) := rfl

theorem collectionPut_arr (opts : Options) (env : FnEnv) (rs : List Record)
    (id : Option Nat) (db : Db) :
    collectionPut opts env (JData.arr rs) id db =
      if idTruthy id && optTruthy opts.relation && optTruthy opts.key then
        if rs.isEmpty then (HRes.ok (some (JData.arr [])), db)
        else
          match dbColl db opts.model with
          | none => (HRes.thrown typeError, db)
          | some c =>
            match processPutItems opts env (id.getD 0) rs c with
            | (Except.error e, c1) => (HRes.thrown e, dbSetColl db opts.model c1)
            | (Except.ok outs, c1) =>
              (HRes.ok (some (JData.arr outs)), dbSetColl db opts.model c1)
      else (HRes.ok none, db) := rfl

/-- C4: the collection binder's put handler returns `undefined` unless the
path id, relation, and key are all truthy and the body is an array; on a
nonempty array it stamps each item's `key` field with the path id, updates
the record under each item's own id, and returns the array of updated
records (exclusions stripped, same length as the input, store keys
unchanged); on an empty array it returns an empty array without touching the
database. -/
theorem c4_collection_put (opts : Options) (env : FnEnv) (data : JData)
    (id : Option Nat) (db : Db) :
    ((idTruthy id && optTruthy opts.relation && optTruthy opts.key
        && (match data with | JData.arr _ => true | JData.obj _ => false)) = false →
      collectionPut opts env data id db = (HRes.ok none, db))
    ∧ ((idTruthy id && optTruthy opts.relation && optTruthy opts.key) = true →
        collectionPut opts env (JData.arr []) id db
          = (HRes.ok (some (JData.arr [])), db))
    ∧ (∀ rs c outs c1, data = JData.arr rs → rs.isEmpty = false →
        (idTruthy id && optTruthy opts.relation && optTruthy opts.key) = true →
        dbColl db opts.model = some c →
        processPutItems opts env (id.getD 0) rs c = (Except.ok outs, c1) →
        collectionPut opts env data id db =
          (HRes.ok (some (JData.arr outs)), dbSetColl db opts.model c1)
        ∧ outs.length = rs.length
        ∧ c1.data = c.data
        ∧ (∀ out ∈ outs, ∀ k, opts.key = some k → ¬ k ∈ opts.exclude →
            rget out k = some (Val.num (id.getD 0)))) := by
  refine ⟨?_, ?_, ?_⟩
  · intro hguard
    cases data with
    | obj r => exact collectionPut_obj opts env r id db
    | arr rs =>
      have hg2 : (idTruthy id && optTruthy opts.relation && optTruthy opts.key) = false := by
        cases hb : (idTruthy id && optTruthy opts.relation && optTruthy opts.key) with
        | false => rfl
        | true =>
          rw [hb] at hguard
          simp at hguard
      rw [collectionPut_arr, if_neg (by simp [hg2])]
  · intro hguard
    rw [collectionPut_arr, if_pos hguard]
    rfl
  · intro rs c outs c1 hdata hne hguard hc hproc
    subst hdata
    have hres := processPutItems_ok opts env (id.getD 0) rs c outs c1 hproc
    have hid0 : id.getD 0 ≠ 0 := by
      rcases id with _ | m
      · simp [idTruthy] at hguard
      · simp only [Option.getD]
        simp only [idTruthy, Bool.and_eq_true] at hguard
        simpa using hguard.1.1
    refine ⟨?_, hres.2.1, hres.1, ?_⟩
    · rw [collectionPut_arr, if_pos hguard,
        if_neg (show ¬ rs.isEmpty = true by simp [hne]), hc]
      show ((match processPutItems opts env (id.getD 0) rs c with
        | (Except.error e, c1) => (HRes.thrown e, dbSetColl db opts.model c1)
        | (Except.ok outs, c1) =>
          (HRes.ok (some (JData.arr outs)), dbSetColl db opts.model c1)) : HRes × Db) = _
      rw [hproc]
    · intro out hout k hkey hkex
      exact (hres.2.2 out hout).2 k hkey hkex hid0

def c8P : Collection :=
  Collection.build "posts"
    [[("title", Val.str "Foo"), ("author_id", Val.num 1)]] serverIndex

def c8A : Collection :=
  Collection.build "authors" [[("name", Val.str "Jane")]] serverIndex

def c8Db : Db := [("posts", Store.coll c8P), ("authors", Store.coll c8A)]

def c8Opts : Options :=
  { model := "authors", relation := some "posts", key := some "author_id" }

/-- Witness for C8: deleting the nested author of post 1 returns undefined
and leaves the authors store untouched. -/
theorem c8_unlink_frame_witness :
    (modelDelete c8Opts env0 (some 1) c8Db).1 = HRes.ok none
    ∧ dbColl (modelDelete c8Opts env0 (some 1) c8Db).2 "authors" = dbColl c8Db "authors" := by
  have h := c8_unlink_frame c8Opts env0 c8Db 1 0 "posts" "author_id" c8P rfl rfl
    (by decide) (by decide) (by decide) (by decide) rfl (by decide)
  exact ⟨h.1.1, h.1.2.1⟩

def c4Opts : Options :=
  { model := "history", relation := some "posts", key := some "post_id" }

def c4H : Collection :=
  Collection.build "history"
    [[("delta", Val.str "foo"), ("post_id", Val.num 1)]] serverIndex

def c4Db : Db := [("history", Store.coll c4H)]

def c4Items : List Record := [[("id", Val.num 1), ("delta", Val.str "bar")]]

def c4Run : Except JsErr (List Record) × Collection :=
  processPutItems c4Opts env0 2 c4Items c4H

def c4Outs : List Record :=
  match c4Run.1 with
  | Except.ok outs => outs
  | Except.error _ => []

/-- Witness for C4: a single-object put returns undefined; an array put of
one item returns a one-element array whose record carries the stamped
foreign key. -/
theorem c4_collection_put_witness :
    collectionPut c4Opts env0 (JData.obj [("delta", Val.str "x")]) (some 2) c4Db
      = (HRes.ok none, c4Db)
    ∧ c4Outs.length = 1
    ∧ (∀ out ∈ c4Outs, rget out "post_id" = some (Val.num 2)) := by
  have h2 := (c4_collection_put c4Opts env0 (JData.arr c4Items) (some 2) c4Db).2.2
    c4Items c4H c4Outs c4Run.2 rfl (by decide) (by decide) rfl (by rfl)
  refine ⟨?_, h2.2.1, ?_⟩
  · exact (c4_collection_put c4Opts env0 (JData.obj [("delta", Val.str "x")])
      (some 2) c4Db).1 (by decide)
  · intro out hout
    exact h2.2.2.2 out hout "post_id" rfl (by decide)

/-! Claim C1: the exclusion invariant. -/

/-- Every defined record in a handler result lacks the field `f`
(an undefined result or a thrown error carries no payload). -/
def hresOmits (f : String) : HRes → Prop
  | HRes.ok none => True
  | HRes.ok (some (JData.obj r)) => rhas r f = false
  | HRes.ok (some (JData.arr rs)) => ∀ r ∈ rs, rhas r f = false
  | HRes.thrown _ => True

theorem collectionGet_omits (opts : Options) (env : FnEnv) (id : Option Nat)
    (db : Db) (f : String) (hf : f ∈ opts.exclude) :
    hresOmits f (collectionGet opts env id db).1 := by
  unfold collectionGet
  split
  · exact trivial
  · show hresOmits f (HRes.ok (some (JData.arr _)))
    intro r hr
    rcases hsplit : (idTruthy id && optTruthy opts.relation && optTruthy opts.key) with _ | _
    · rw [hsplit] at hr
      simp only [Bool.false_eq_true, if_neg] at hr
      obtain ⟨r0, _, hr0⟩ := List.mem_map.1 hr
      rw [← hr0]
      exact rhas_omitKeys r0 opts.exclude f hf
    · rw [hsplit] at hr
      simp only [if_pos] at hr
      have hr2 := List.mem_filter.1 hr
      obtain ⟨r0, _, hr0⟩ := List.mem_map.1 hr2.1
      rw [← hr0]
      exact rhas_omitKeys r0 opts.exclude f hf

theorem processItemCore_shape (opts : Options) (env : FnEnv) (item1 : Record)
    (c : Collection) (out : Record) (c1 : Collection)
    (h : (if rhas item1 "id" then
            match Collection.updateV env c ((rget item1 "id").getD Val.undef) item1 with
            | Except.error e => (Except.error e, c)
            | Except.ok rc => (Except.ok (omitKeys rc.1 opts.exclude), rc.2)
          else
            (Except.ok (omitKeys ((Collection.add env c item1).1.getD []) opts.exclude),
             (Collection.add env c item1).2)) = (Except.ok out, c1)) :
    ∃ r0, out = omitKeys r0 opts.exclude := by
  split at h
  · rcases hu : Collection.updateV env c ((rget item1 "id").getD Val.undef) item1
      with e | rc
    · rw [hu] at h
      simp at h
    · rw [hu] at h
      simp only [Prod.mk.injEq, Except.ok.injEq] at h
      exact ⟨_, h.1.symm⟩
  · simp only [Prod.mk.injEq, Except.ok.injEq] at h
    exact ⟨_, h.1.symm⟩

theorem processItem_shape (opts : Options) (env : FnEnv) (stamp : Option Nat)
    (item : Record) (c : Collection) (out : Record) (c1 : Collection)
    (h : processItem opts env stamp item c = (Except.ok out, c1)) :
    ∃ r0, out = omitKeys r0 opts.exclude := by
  cases stamp with
  | some n => exact processItemCore_shape opts env _ c out c1 h
  | none => exact processItemCore_shape opts env _ c out c1 h

theorem processItems_shape (opts : Options) (env : FnEnv) (stamp : Option Nat) :
    ∀ (rs : List Record) (c : Collection) (outs : List Record) (c1 : Collection),
      processItems opts env stamp rs c = (Except.ok outs, c1) →
      ∀ out ∈ outs, ∃ r0, out = omitKeys r0 opts.exclude := by
  intro rs
  induction rs with
  | nil =>
    intro c outs c1 h
    unfold processItems at h
    simp only [Prod.mk.injEq, Except.ok.injEq] at h
    obtain ⟨h1, _⟩ := h
    subst h1
    intro out hout
    cases hout
  | cons r rs ih =>
    intro c outs c1 h
    unfold processItems at h
    rcases hp : processItem opts env stamp r c with ⟨res, cmid⟩
    rw [hp] at h
    cases res with
    | error e => simp at h
    | ok out0 =>
      have h2 : (match processItems opts env stamp rs cmid with
        | (Except.ok outs2, c2) => (Except.ok (out0 :: outs2), c2)
        | (Except.error e, c2) => (Except.error e, c2)) = (Except.ok outs, c1) := h
      clear h
      rcases hrest : processItems opts env stamp rs cmid with ⟨res2, cend⟩
      rw [hrest] at h2
      cases res2 with
      | error e => simp at h2
      | ok outs2 =>
        simp only [Prod.mk.injEq, Except.ok.injEq] at h2
        obtain ⟨h1, _⟩ := h2
        subst h1
        intro out hout
        rcases List.mem_cons.1 hout with hcase | hcase
        · subst hcase
          exact processItem_shape opts env stamp r c out cmid hp
        · exact ih cmid outs2 cend hrest out hcase

theorem collectionPost_obj_eq (opts : Options) (env : FnEnv) (r : Record)
    (id : Option Nat) (db : Db) :
    collectionPost opts env (JData.obj r) id db =
      match dbColl db opts.model with
      | none => (HRes.thrown typeError, db)
      | some c =>
        match processItem opts env
            (if idTruthy id && optTruthy opts.relation && optTruthy opts.key then id
             else none) r c with
        | (Except.error e, c1) => (HRes.thrown e, dbSetColl db opts.model c1)
        | (Except.ok out, c1) =>
          (HRes.ok (some (JData.obj out)), dbSetColl db opts.model c1) := rfl

theorem collectionPost_arr_eq (opts : Options) (env : FnEnv) (rs : List Record)
    (id : Option Nat) (db : Db) :
    collectionPost opts env (JData.arr rs) id db =
      if rs.isEmpty then (HRes.ok (some (JData.arr [])), db)
      else
        match dbColl db opts.model with
        | none => (HRes.thrown typeError, db)
        | some c =>
          match processItems opts env
              (if idTruthy id && optTruthy opts.relation && optTruthy opts.key then id
               else none) rs c with
          | (Except.error e, c1) => (HRes.thrown e, dbSetColl db opts.model c1)
          | (Except.ok outs, c1) =>
            (HRes.ok (some (JData.arr outs)), dbSetColl db opts.model c1) := rfl

theorem collectionPost_obj_some (opts : Options) (env : FnEnv) (r : Record)
    (id : Option Nat) (db : Db) (c : Collection)
    (hdb : dbColl db opts.model = some c) :
    collectionPost opts env (JData.obj r) id db =
      match processItem opts env
          (if idTruthy id && optTruthy opts.relation && optTruthy opts.key then id
           else none) r c with
      | (Except.error e, c1) => (HRes.thrown e, dbSetColl db opts.model c1)
      | (Except.ok out, c1) =>
        (HRes.ok (some (JData.obj out)), dbSetColl db opts.model c1) := by
  rw [collectionPost_obj_eq, hdb]

theorem collectionPost_arr_some (opts : Options) (env : FnEnv) (rs : List Record)
    (id : Option Nat) (db : Db) (c : Collection)
    (hemp : rs.isEmpty = false) (hdb : dbColl db opts.model = some c) :
    collectionPost opts env (JData.arr rs) id db =
      match processItems opts env
          (if idTruthy id && optTruthy opts.relation && optTruthy opts.key then id
           else none) rs c with
      | (Except.error e, c1) => (HRes.thrown e, dbSetColl db opts.model c1)
      | (Except.ok outs, c1) =>
        (HRes.ok (some (JData.arr outs)), dbSetColl db opts.model c1) := by
  rw [collectionPost_arr_eq, hemp, hdb]
  rfl

theorem collectionPost_omits (opts : Options) (env : FnEnv) (data : JData)
    (id : Option Nat) (db : Db) (f : String) (hf : f ∈ opts.exclude) :
    hresOmits f (collectionPost opts env data id db).1 := by
  cases data with
  | obj r =>
    rcases hdb : dbColl db opts.model with _ | c
    · rw [collectionPost_obj_eq, hdb]
      exact trivial
    · rw [collectionPost_obj_some opts env r id db c hdb]
      rcases hp : processItem opts env
          (if idTruthy id && optTruthy opts.relation && optTruthy opts.key then id
           else none) r c with ⟨res, cmid⟩
      cases res with
      | error e => exact trivial
      | ok out =>
        show rhas out f = false
        obtain ⟨r0, hr0⟩ := processItem_shape opts env _ r c out cmid hp
        rw [hr0]
        exact rhas_omitKeys r0 opts.exclude f hf
  | arr rs =>
    rcases hemp : rs.isEmpty with _ | _
    · rcases hdb : dbColl db opts.model with _ | c
      · rw [collectionPost_arr_eq, hemp, hdb]
        exact trivial
      · rw [collectionPost_arr_some opts env rs id db c hemp hdb]
        rcases hp : processItems opts env
            (if idTruthy id && optTruthy opts.relation && optTruthy opts.key then id
             else none) rs c with ⟨res, cmid⟩
        cases res with
        | error e => exact trivial
        | ok outs =>
          show ∀ r ∈ outs, rhas r f = false
          intro r hr
          obtain ⟨r0, hr0⟩ := processItems_shape opts env _ rs c outs cmid hp r hr
          rw [hr0]
          exact rhas_omitKeys r0 opts.exclude f hf
    · rw [collectionPost_arr_eq, hemp]
      show ∀ r ∈ ([] : List Record), rhas r f = false
      intro r hr
      cases hr

theorem collectionPut_arr_some (opts : Options) (env : FnEnv) (rs : List Record)
    (id : Option Nat) (db : Db) (c : Collection)
    (hg : (idTruthy id && optTruthy opts.relation && optTruthy opts.key) = true)
    (hemp : rs.isEmpty = false)
    (hdb : dbColl db opts.model = some c) :
    collectionPut opts env (JData.arr rs) id db =
      match processPutItems opts env (id.getD 0) rs c with
      | (Except.error e, c1) => (HRes.thrown e, dbSetColl db opts.model c1)
      | (Except.ok outs, c1) =>
        (HRes.ok (some (JData.arr outs)), dbSetColl db opts.model c1) := by
  rw [collectionPut_arr, hg, hemp, hdb]
  rfl

theorem collectionPut_omits (opts : Options) (env : FnEnv) (data : JData)
    (id : Option Nat) (db : Db) (f : String) (hf : f ∈ opts.exclude) :
    hresOmits f (collectionPut opts env data id db).1 := by
  cases data with
  | obj r =>
    rw [collectionPut_obj]
    exact trivial
  | arr rs =>
    rcases hg : (idTruthy id && optTruthy opts.relation && optTruthy opts.key)
      with _ | _
    · rw [collectionPut_arr, hg]
      exact trivial
    · rcases hemp : rs.isEmpty with _ | _
      · rcases hdb : dbColl db opts.model with _ | c
        · rw [collectionPut_arr, hg, hemp, hdb]
          exact trivial
        · rw [collectionPut_arr_some opts env rs id db c hg hemp hdb]
          rcases hp : processPutItems opts env (id.getD 0) rs c with ⟨res, cmid⟩
          cases res with
          | error e => exact trivial
          | ok outs =>
            show ∀ r ∈ outs, rhas r f = false
            intro r hr
            obtain ⟨⟨r0, hr0⟩, -⟩ :=
              (processPutItems_ok opts env (id.getD 0) rs c outs cmid hp).2.2 r hr
            rw [hr0]
            exact rhas_omitKeys r0 opts.exclude f hf
      · rw [collectionPut_arr, hg, hemp]
        show ∀ r ∈ ([] : List Record), rhas r f = false
        intro r hr
        cases hr

theorem modelGet_eq (opts : Options) (env : FnEnv) (id : Option Nat) (db : Db) :
    modelGet opts env id db =
      if idTruthy id && optTruthy opts.relation && optTruthy opts.key then
        match dbColl db (opts.relation.getD "") with
        | none => (HRes.thrown typeError, db)
        | some rc =>
          if dhas rc.data (id.getD 0) then
            match Collection.proxyField rc (id.getD 0) (opts.key.getD "") with
            | none => (HRes.ok none, db)
            | some v =>
              match dbColl db opts.model with
              | none => (HRes.thrown typeError, db)
              | some mc =>
                match valKeyLookup v mc.data with
                | none => (HRes.ok none, db)
                | some kt =>
                  (HRes.ok (some (JData.obj
                      (omitKeys (Collection.getCore env mc kt.1 kt.2).1 opts.exclude))),
                   dbSetColl db opts.model (Collection.getCore env mc kt.1 kt.2).2)
          else (HRes.ok none, db)
      else
        match dbColl db opts.model with
        | none => (HRes.thrown typeError, db)
        | some mc =>
          match id with
          | none => (HRes.ok none, db)
          | some n =>
            if dhas mc.data n then
              (HRes.ok (some (JData.obj
                  (omitKeys (Collection.getCore env mc n (n != 0)).1 opts.exclude))),
               dbSetColl db opts.model (Collection.getCore env mc n (n != 0)).2)
            else (HRes.ok none, db) := rfl

theorem modelGet_omits (opts : Options) (env : FnEnv) (id : Option Nat)
    (db : Db) (f : String) (hf : f ∈ opts.exclude) :
    hresOmits f (modelGet opts env id db).1 := by
  rw [modelGet_eq]
  split
  · split
    · exact trivial
    · split
      · split
        · exact trivial
        · split
          · exact trivial
          · split
            · exact trivial
            · exact rhas_omitKeys _ _ f hf
      · exact trivial
  · split
    · exact trivial
    · split
      · exact trivial
      · split
        · exact rhas_omitKeys _ _ f hf
        · exact trivial

def modelPutNoRel (opts : Options) (env : FnEnv) (data : JData)
    (id : Option Nat) (db : Db) : HRes × Db :=
  match dbColl db opts.model with
  | none => (HRes.thrown typeError, db)
  | some mc =>
    match id with
    | none => (HRes.ok none, db)
    | some n =>
      if dhas mc.data n then
        match Collection.update env mc n (JData.entries data) with
        | Except.error e => (HRes.thrown e, db)
        | Except.ok rc =>
          (HRes.ok (some (JData.obj (omitKeys rc.1 opts.exclude))),
           dbSetColl db opts.model rc.2)
      else (HRes.ok none, db)

theorem modelPut_noRel_eq (opts : Options) (env : FnEnv) (data : JData)
    (id : Option Nat) (db : Db)
    (hg : (idTruthy id && optTruthy opts.relation && optTruthy opts.key) = false) :
    modelPut opts env data id db = modelPutNoRel opts env data id db := by
  unfold modelPut
  rw [hg]
  rfl

theorem modelPut_noRel_omits (opts : Options) (env : FnEnv) (data : JData)
    (id : Option Nat) (db : Db) (f : String)
    (hg : (idTruthy id && optTruthy opts.relation && optTruthy opts.key) = false)
    (hf : f ∈ opts.exclude) :
    hresOmits f (modelPut opts env data id db).1 := by
  rw [modelPut_noRel_eq opts env data id db hg]
  unfold modelPutNoRel
  rcases hdb : dbColl db opts.model with _ | mc
  · exact trivial
  · cases id with
    | none => exact trivial
    | some n =>
      show hresOmits f ((if dhas mc.data n then
          match Collection.update env mc n (JData.entries data) with
          | Except.error e => (HRes.thrown e, db)
          | Except.ok rc =>
            (HRes.ok (some (JData.obj (omitKeys rc.1 opts.exclude))),
             dbSetColl db opts.model rc.2)
        else (HRes.ok none, db) : HRes × Db)).1
      rcases hd : dhas mc.data n with _ | _
      · exact trivial
      · rcases hupd : Collection.update env mc n (JData.entries data) with e | rc
        · exact trivial
        · show rhas (omitKeys rc.1 opts.exclude) f = false
          exact rhas_omitKeys rc.1 opts.exclude f hf

def jdataIsPlain : JData → Bool
  | JData.obj _ => true
  | JData.arr _ => false

def jdataRec : JData → Record
  | JData.obj r => r
  | JData.arr _ => []

def modelPostTail (opts : Options) (env : FnEnv) (id : Option Nat) (db : Db)
    (step : Except JsErr Record × Collection) : HRes × Db :=
  match step with
  | (Except.error e, mc1) => (HRes.thrown e, dbSetColl db opts.model mc1)
  | (Except.ok res, mc1) =>
    let db1 := dbSetColl db opts.model mc1
    match dbColl db1 (opts.relation.getD "") with
    | none => (HRes.thrown typeError, db1)
    | some rc =>
      match Collection.update env rc (id.getD 0)
          [(opts.key.getD "", (rget res "id").getD Val.undef)] with
      | Except.error e => (HRes.thrown e, db1)
      | Except.ok rr =>
        (HRes.ok (some (JData.obj res)), dbSetColl db1 (opts.relation.getD "") rr.2)

theorem modelPost_eq (opts : Options) (env : FnEnv) (data : JData)
    (id : Option Nat) (db : Db) :
    modelPost opts env data id db =
      if idTruthy id && optTruthy opts.relation && optTruthy opts.key
          && jdataIsPlain data then
        match dbColl db opts.model with
        | none => (HRes.thrown typeError, db)
        | some mc =>
          modelPostTail opts env id db (processItem opts env none (jdataRec data) mc)
      else (HRes.ok none, db) := rfl

theorem modelPostTail_omits (opts : Options) (env : FnEnv) (id : Option Nat)
    (db : Db) (step : Except JsErr Record × Collection) (f : String)
    (hf : f ∈ opts.exclude)
    (hstep : ∀ out mc1, step = (Except.ok out, mc1) →
      ∃ r0, out = omitKeys r0 opts.exclude) :
    hresOmits f (modelPostTail opts env id db step).1 := by
  rcases step with ⟨res, mc1⟩
  cases res with
  | error e => exact trivial
  | ok out =>
    show hresOmits f ((match dbColl (dbSetColl db opts.model mc1)
          (opts.relation.getD "") with
      | none => (HRes.thrown typeError, dbSetColl db opts.model mc1)
      | some rc =>
        match Collection.update env rc (id.getD 0)
            [(opts.key.getD "", (rget out "id").getD Val.undef)] with
        | Except.error e => (HRes.thrown e, dbSetColl db opts.model mc1)
        | Except.ok rr =>
          (HRes.ok (some (JData.obj out)),
           dbSetColl (dbSetColl db opts.model mc1) (opts.relation.getD "") rr.2)
      : HRes × Db)).1
    rcases hrc : dbColl (dbSetColl db opts.model mc1) (opts.relation.getD "")
      with _ | rc
    · exact trivial
    · show hresOmits f ((match Collection.update env rc (id.getD 0)
            [(opts.key.getD "", (rget out "id").getD Val.undef)] with
        | Except.error e => (HRes.thrown e, dbSetColl db opts.model mc1)
        | Except.ok rr =>
          (HRes.ok (some (JData.obj out)),
           dbSetColl (dbSetColl db opts.model mc1) (opts.relation.getD "") rr.2)
        : HRes × Db)).1
      rcases hupd : Collection.update env rc (id.getD 0)
          [(opts.key.getD "", (rget out "id").getD Val.undef)] with e | rr
      · exact trivial
      · show rhas out f = false
        obtain ⟨r0, hr0⟩ := hstep out mc1 rfl
        rw [hr0]
        exact rhas_omitKeys r0 opts.exclude f hf

theorem modelPost_omits (opts : Options) (env : FnEnv) (data : JData)
    (id : Option Nat) (db : Db) (f : String) (hf : f ∈ opts.exclude) :
    hresOmits f (modelPost opts env data id db).1 := by
  rcases hg : (idTruthy id && optTruthy opts.relation && optTruthy opts.key
      && jdataIsPlain data) with _ | _
  · rw [modelPost_eq, hg]
    exact trivial
  · rw [modelPost_eq, hg]
    rcases hdb : dbColl db opts.model with _ | mc
    · exact trivial
    · show hresOmits f
        (modelPostTail opts env id db (processItem opts env none (jdataRec data) mc)).1
      exact modelPostTail_omits opts env id db _ f hf
        (fun out mc1 h => processItem_shape opts env none (jdataRec data) mc out mc1 h)

theorem singletonGet_omits (opts : Options) (env : FnEnv) (id : Option Nat)
    (db : Db) (f : String) (hf : f ∈ opts.exclude) :
    hresOmits f (singletonGet opts env id db).1 := by
  unfold singletonGet
  rcases hs : dbSing db opts.model with _ | s
  · exact trivial
  · show rhas (omitKeys (Singleton.json env s) opts.exclude) f = false
    exact rhas_omitKeys _ _ f hf

theorem singletonPut_omits (opts : Options) (env : FnEnv) (data : JData)
    (db : Db) (f : String) (hf : f ∈ opts.exclude) :
    hresOmits f (singletonPut opts env data db).1 := by
  unfold singletonPut
  rcases hs : dbSing db opts.model with _ | s
  · exact trivial
  · show rhas (omitKeys (Singleton.update env s (JData.entries data)).1 opts.exclude)
      f = false
    exact rhas_omitKeys _ _ f hf

def c1Opts : Options :=
  { model := "authors", exclude := ["email"], relation := some "posts",
    key := some "author_id" }

def c1Posts : Collection :=
  Collection.build "posts" [[("title", Val.str "Foo"), ("author_id", Val.num 1)]]
    serverIndex

def c1Authors : Collection :=
  Collection.build "authors"
    [[("name", Val.str "Jane"), ("email", Val.str "jane@doe.com")]] serverIndex

def c1Db : Db := [("posts", Store.coll c1Posts), ("authors", Store.coll c1Authors)]

/-- C1 counterexample: with `exclude := ["email"]` on a model endpoint in
relation context, the put handler resolves the target through
`this.db[model].get` and returns the record raw — the excluded `email` key
is present in the response, refuting the unrestricted exclusion claim. -/
theorem c1_exclusion_counterexample :
    ("email" ∈ c1Opts.exclude)
    ∧ (match (modelPut c1Opts env0 (JData.obj [("id", Val.num 1)])
          (some 1) c1Db).1 with
       | HRes.ok (some (JData.obj r)) => rhas r "email"
       | _ => false) = true := by
  refine ⟨?_, ?_⟩
  · decide
  · rfl

/-- C1 (amended): for every endpoint bound through the resource binders with
`f` in its exclude list, every defined value returned by the collection
get/post/put handlers, the model get/post handlers, the model put handler
*without* relation context, and the singleton get/put handlers omits the key
`f`; the model put handler with relation context is exempt (it returns the
target record without stripping exclusions). -/
theorem c1_exclusion_invariant (opts : Options) (env : FnEnv) (data : JData)
    (id : Option Nat) (db : Db) (f : String) (hf : f ∈ opts.exclude) :
    hresOmits f (collectionGet opts env id db).1
    ∧ hresOmits f (collectionPost opts env data id db).1
    ∧ hresOmits f (collectionPut opts env data id db).1
    ∧ hresOmits f (modelGet opts env id db).1
    ∧ hresOmits f (modelPost opts env data id db).1
    ∧ ((idTruthy id && optTruthy opts.relation && optTruthy opts.key) = false →
        hresOmits f (modelPut opts env data id db).1)
    ∧ hresOmits f (singletonGet opts env id db).1
    ∧ hresOmits f (singletonPut opts env data db).1 :=
  ⟨collectionGet_omits opts env id db f hf,
   collectionPost_omits opts env data id db f hf,
   collectionPut_omits opts env data id db f hf,
   modelGet_omits opts env id db f hf,
   modelPost_omits opts env data id db f hf,
   fun hg => modelPut_noRel_omits opts env data id db f hg hf,
   singletonGet_omits opts env id db f hf,
   singletonPut_omits opts env data db f hf⟩

/-- Witness for C1: on the concrete two-store database, the model get
response and the relation-free model put response both omit `email`. -/
theorem c1_exclusion_invariant_witness :
    ("email" ∈ c1Opts.exclude)
    ∧ hresOmits "email" (modelGet c1Opts env0 (some 1) c1Db).1
    ∧ hresOmits "email"
        (modelPut c1Opts env0 (JData.obj [("id", Val.num 1)]) none c1Db).1 := by
  have h := c1_exclusion_invariant c1Opts env0 (JData.obj [("id", Val.num 1)])
    (some 1) c1Db "email" (by decide)
  have h2 := c1_exclusion_invariant c1Opts env0 (JData.obj [("id", Val.num 1)])
    none c1Db "email" (by decide)
  exact ⟨by decide, h.2.2.2.1, h2.2.2.2.2.2.1 (by decide)⟩

/-! Claims C5 and C6: the dispatcher. -/

theorem dispatchGet_eq (api : Api) (baseUrl url : String) (db : Db) :
    dispatchGet api baseUrl url db =
      match lookupApi api (normalize (baseUrl ++ url)).endpoint with
      | none => (Except.error (NotFound url), db)
      | some none => (Except.error (NotFound url), db)
      | some (some hs) =>
        match hs.get with
        | none => (Except.error (NotFound url), db)
        | some h =>
          match h (normalize (baseUrl ++ url)).id db with
          | (HRes.thrown e, db1) => (Except.error e, db1)
          | (HRes.ok none, db1) =>
            (Except.error (Missing (normalize (baseUrl ++ url)).id), db1)
          | (HRes.ok (some v), db1) =>
            (Except.ok { status := 200, data := some v }, db1) := rfl

theorem dispatchPost_eq (api : Api) (baseUrl url : String) (data : JData)
    (db : Db) :
    dispatchPost api baseUrl url data db =
      match lookupApi api (normalize (baseUrl ++ url)).endpoint with
      | none => (Except.error (NotFound url), db)
      | some none => (Except.error (NotFound url), db)
      | some (some hs) =>
        match hs.post with
        | none => (Except.error (NotFound url), db)
        | some h =>
          match h data (normalize (baseUrl ++ url)).id db with
          | (HRes.thrown e, db1) => (Except.error e, db1)
          | (HRes.ok v, db1) => (Except.ok { status := 201, data := v }, db1) := rfl

theorem dispatchPut_eq (api : Api) (baseUrl url : String) (data : JData)
    (db : Db) :
    dispatchPut api baseUrl url data db =
      match lookupApi api (normalize (baseUrl ++ url)).endpoint with
      | none => (Except.error (NotFound url), db)
      | some none => (Except.error (NotFound url), db)
      | some (some hs) =>
        match hs.put with
        | none => (Except.error (NotFound url), db)
        | some h =>
          match h data (normalize (baseUrl ++ url)).id db with
          | (HRes.thrown e, db1) => (Except.error e, db1)
          | (HRes.ok v, db1) => (Except.ok { status := 200, data := v }, db1) := rfl

theorem dispatchDelete_eq (api : Api) (baseUrl url : String) (db : Db) :
    dispatchDelete api baseUrl url db =
      match lookupApi api (normalize (baseUrl ++ url)).endpoint with
      | none => (Except.error (NotFound url), db)
      | some none => (Except.error (NotFound url), db)
      | some (some hs) =>
        match hs.delete with
        | none => (Except.error (NotFound url), db)
        | some h =>
          match h (normalize (baseUrl ++ url)).id db with
          | (HRes.thrown e, db1) => (Except.error e, db1)
          | (HRes.ok v, db1) => (Except.ok { status := 204, data := v }, db1) := rfl

theorem runVerb_get (hs : HandlerSet) (data : JData) (id : Option Nat)
    (db : Db) :
    runVerb hs Verb.get data id db = hs.get.map (fun h => h id db) := rfl

theorem runVerb_post (hs : HandlerSet) (data : JData) (id : Option Nat)
    (db : Db) :
    runVerb hs Verb.post data id db = hs.post.map (fun h => h data id db) := rfl

theorem runVerb_put (hs : HandlerSet) (data : JData) (id : Option Nat)
    (db : Db) :
    runVerb hs Verb.put data id db = hs.put.map (fun h => h data id db) := rfl

theorem runVerb_delete (hs : HandlerSet) (data : JData) (id : Option Nat)
    (db : Db) :
    runVerb hs Verb.delete data id db = hs.delete.map (fun h => h id db) := rfl

/-- C5: when the endpoint is registered and the verb handler exists and
returns normally, GET and PUT resolve with status 200, POST with 201 and
DELETE with 204, and a GET whose handler returned undefined is rejected with
the 404 Missing envelope instead of resolving. -/
theorem c5_status_codes (v : Verb) (api : Api) (baseUrl url : String)
    (data : JData) (db : Db) (hs : HandlerSet) (res : Option JData) (db1 : Db)
    (hlk : lookupApi api (normalize (baseUrl ++ url)).endpoint = some (some hs))
    (hrun : runVerb hs v data (normalize (baseUrl ++ url)).id db
      = some (HRes.ok res, db1)) :
    dispatch v api baseUrl url data db =
      match v, res with
      | Verb.get, none =>
        (Except.error (Missing (normalize (baseUrl ++ url)).id), db1)
      | Verb.get, some payload =>
        (Except.ok { status := 200, data := some payload }, db1)
      | Verb.put, _ => (Except.ok { status := 200, data := res }, db1)
      | Verb.post, _ => (Except.ok { status := 201, data := res }, db1)
      | Verb.delete, _ => (Except.ok { status := 204, data := res }, db1) := by
  cases v with
  | get =>
    rw [runVerb_get] at hrun
    rcases hv : hs.get with _ | h
    · rw [hv] at hrun
      exact Option.noConfusion hrun
    · rw [hv] at hrun
      have hh : h (normalize (baseUrl ++ url)).id db = (HRes.ok res, db1) :=
        Option.some.inj hrun
      show dispatchGet api baseUrl url db = _
      rw [dispatchGet_eq, hlk]
      show ((match hs.get with
        | none => (Except.error (NotFound url), db)
        | some h =>
          match h (normalize (baseUrl ++ url)).id db with
          | (HRes.thrown e, db1) => (Except.error e, db1)
          | (HRes.ok none, db1) =>
            (Except.error (Missing (normalize (baseUrl ++ url)).id), db1)
          | (HRes.ok (some v), db1) =>
            (Except.ok { status := 200, data := some v }, db1)) : Except JsErr Response × Db) = _
      rw [hv]
      show ((match h (normalize (baseUrl ++ url)).id db with
        | (HRes.thrown e, db1) => (Except.error e, db1)
        | (HRes.ok none, db1) =>
          (Except.error (Missing (normalize (baseUrl ++ url)).id), db1)
        | (HRes.ok (some v), db1) =>
          (Except.ok { status := 200, data := some v }, db1)) : Except JsErr Response × Db) = _
      rw [hh]
      cases res with
      | none => rfl
      | some payload => rfl
  | post =>
    rw [runVerb_post] at hrun
    rcases hv : hs.post with _ | h
    · rw [hv] at hrun
      exact Option.noConfusion hrun
    · rw [hv] at hrun
      have hh : h data (normalize (baseUrl ++ url)).id db = (HRes.ok res, db1) :=
        Option.some.inj hrun
      show dispatchPost api baseUrl url data db = _
      rw [dispatchPost_eq, hlk]
      show ((match hs.post with
        | none => (Except.error (NotFound url), db)
        | some h =>
          match h data (normalize (baseUrl ++ url)).id db with
          | (HRes.thrown e, db1) => (Except.error e, db1)
          | (HRes.ok v, db1) => (Except.ok { status := 201, data := v }, db1)) : Except JsErr Response × Db) = _
      rw [hv]
      show ((match h data (normalize (baseUrl ++ url)).id db with
        | (HRes.thrown e, db1) => (Except.error e, db1)
        | (HRes.ok v, db1) => (Except.ok { status := 201, data := v }, db1)) : Except JsErr Response × Db) = _
      rw [hh]
  | put =>
    rw [runVerb_put] at hrun
    rcases hv : hs.put with _ | h
    · rw [hv] at hrun
      exact Option.noConfusion hrun
    · rw [hv] at hrun
      have hh : h data (normalize (baseUrl ++ url)).id db = (HRes.ok res, db1) :=
        Option.some.inj hrun
      show dispatchPut api baseUrl url data db = _
      rw [dispatchPut_eq, hlk]
      show ((match hs.put with
        | none => (Except.error (NotFound url), db)
        | some h =>
          match h data (normalize (baseUrl ++ url)).id db with
          | (HRes.thrown e, db1) => (Except.error e, db1)
          | (HRes.ok v, db1) => (Except.ok { status := 200, data := v }, db1)) : Except JsErr Response × Db) = _
      rw [hv]
      show ((match h data (normalize (baseUrl ++ url)).id db with
        | (HRes.thrown e, db1) => (Except.error e, db1)
        | (HRes.ok v, db1) => (Except.ok { status := 200, data := v }, db1)) : Except JsErr Response × Db) = _
      rw [hh]
  | delete =>
    rw [runVerb_delete] at hrun
    rcases hv : hs.delete with _ | h
    · rw [hv] at hrun
      exact Option.noConfusion hrun
    · rw [hv] at hrun
      have hh : h (normalize (baseUrl ++ url)).id db = (HRes.ok res, db1) :=
        Option.some.inj hrun
      show dispatchDelete api baseUrl url db = _
      rw [dispatchDelete_eq, hlk]
      show ((match hs.delete with
        | none => (Except.error (NotFound url), db)
        | some h =>
          match h (normalize (baseUrl ++ url)).id db with
          | (HRes.thrown e, db1) => (Except.error e, db1)
          | (HRes.ok v, db1) => (Except.ok { status := 204, data := v }, db1)) : Except JsErr Response × Db) = _
      rw [hv]
      show ((match h (normalize (baseUrl ++ url)).id db with
        | (HRes.thrown e, db1) => (Except.error e, db1)
        | (HRes.ok v, db1) => (Except.ok { status := 204, data := v }, db1)) : Except JsErr Response × Db) = _
      rw [hh]

def c5Hs : HandlerSet :=
  { get := some (fun _ db => (HRes.ok (some (JData.obj [("a", Val.num 1)])), db))
    post := some (fun _ _ db => (HRes.ok none, db))
    put := some (fun _ _ db => (HRes.ok (some (JData.arr [])), db))
    delete := some (fun _ db => (HRes.ok none, db)) }

def c5HsMiss : HandlerSet :=
  { get := some (fun _ db => (HRes.ok none, db)) }

def c5Api : Api := [("/x", some c5Hs), ("/y", some c5HsMiss)]

/-- Witness for C5: on a concrete two-endpoint api, GET resolves 200, POST
201, PUT 200, DELETE 204, and a GET whose handler returns undefined rejects
with the Missing envelope. -/
theorem c5_status_codes_witness :
    dispatch Verb.get c5Api "" "/x" (JData.obj []) []
      = (Except.ok { status := 200, data := some (JData.obj [("a", Val.num 1)]) }, [])
    ∧ dispatch Verb.post c5Api "" "/x" (JData.obj []) []
      = (Except.ok { status := 201, data := none }, [])
    ∧ dispatch Verb.put c5Api "" "/x" (JData.obj []) []
      = (Except.ok { status := 200, data := some (JData.arr []) }, [])
    ∧ dispatch Verb.delete c5Api "" "/x" (JData.obj []) []
      = (Except.ok { status := 204, data := none }, [])
    ∧ dispatch Verb.get c5Api "" "/y" (JData.obj []) []
      = (Except.error (Missing none), []) := by
  refine ⟨?_, ?_, ?_, ?_, ?_⟩
  · exact c5_status_codes Verb.get c5Api "" "/x" (JData.obj []) [] c5Hs
      (some (JData.obj [("a", Val.num 1)])) [] rfl rfl
  · exact c5_status_codes Verb.post c5Api "" "/x" (JData.obj []) [] c5Hs
      none [] rfl rfl
  · exact c5_status_codes Verb.put c5Api "" "/x" (JData.obj []) [] c5Hs
      (some (JData.arr [])) [] rfl rfl
  · exact c5_status_codes Verb.delete c5Api "" "/x" (JData.obj []) [] c5Hs
      none [] rfl rfl
  · exact c5_status_codes Verb.get c5Api "" "/y" (JData.obj []) [] c5HsMiss
      none [] rfl rfl

/-- C6: failures are envelope rejections, never alternative control flow: an
unregistered endpoint or an explicitly null one rejects with the 404
NotFound envelope, a handler set with no function for the verb rejects with
NotFound, and an envelope thrown by handler code is delivered as the
rejection unchanged. -/
theorem c6_error_envelopes (v : Verb) (api : Api) (baseUrl url : String)
    (data : JData) (db : Db) :
    (lookupApi api (normalize (baseUrl ++ url)).endpoint = none →
      dispatch v api baseUrl url data db = (Except.error (NotFound url), db))
    ∧ (lookupApi api (normalize (baseUrl ++ url)).endpoint = some none →
      dispatch v api baseUrl url data db = (Except.error (NotFound url), db))
    ∧ (∀ hs, lookupApi api (normalize (baseUrl ++ url)).endpoint = some (some hs) →
        runVerb hs v data (normalize (baseUrl ++ url)).id db = none →
        dispatch v api baseUrl url data db = (Except.error (NotFound url), db))
    ∧ (∀ hs e db1,
        lookupApi api (normalize (baseUrl ++ url)).endpoint = some (some hs) →
        runVerb hs v data (normalize (baseUrl ++ url)).id db
          = some (HRes.thrown e, db1) →
        dispatch v api baseUrl url data db = (Except.error e, db1)) := by
  refine ⟨?_, ?_, ?_, ?_⟩
  · intro hlk
    cases v with
    | get =>
      show dispatchGet api baseUrl url db = _
      rw [dispatchGet_eq, hlk]
    | post =>
      show dispatchPost api baseUrl url data db = _
      rw [dispatchPost_eq, hlk]
    | put =>
      show dispatchPut api baseUrl url data db = _
      rw [dispatchPut_eq, hlk]
    | delete =>
      show dispatchDelete api baseUrl url db = _
      rw [dispatchDelete_eq, hlk]
  · intro hlk
    cases v with
    | get =>
      show dispatchGet api baseUrl url db = _
      rw [dispatchGet_eq, hlk]
    | post =>
      show dispatchPost api baseUrl url data db = _
      rw [dispatchPost_eq, hlk]
    | put =>
      show dispatchPut api baseUrl url data db = _
      rw [dispatchPut_eq, hlk]
    | delete =>
      show dispatchDelete api baseUrl url db = _
      rw [dispatchDelete_eq, hlk]
  · intro hs hlk hrun
    cases v with
    | get =>
      rw [runVerb_get] at hrun
      rcases hv : hs.get with _ | h
      · show dispatchGet api baseUrl url db = _
        rw [dispatchGet_eq, hlk]
        show ((match hs.get with
          | none => (Except.error (NotFound url), db)
          | some h =>
            match h (normalize (baseUrl ++ url)).id db with
            | (HRes.thrown e, db1) => (Except.error e, db1)
            | (HRes.ok none, db1) =>
              (Except.error (Missing (normalize (baseUrl ++ url)).id), db1)
            | (HRes.ok (some w), db1) =>
              (Except.ok { status := 200, data := some w }, db1))
          : Except JsErr Response × Db) = _
        rw [hv]
      · rw [hv] at hrun
        exact Option.noConfusion hrun
    | post =>
      rw [runVerb_post] at hrun
      rcases hv : hs.post with _ | h
      · show dispatchPost api baseUrl url data db = _
        rw [dispatchPost_eq, hlk]
        show ((match hs.post with
          | none => (Except.error (NotFound url), db)
          | some h =>
            match h data (normalize (baseUrl ++ url)).id db with
            | (HRes.thrown e, db1) => (Except.error e, db1)
            | (HRes.ok w, db1) => (Except.ok { status := 201, data := w }, db1))
          : Except JsErr Response × Db) = _
        rw [hv]
      · rw [hv] at hrun
        exact Option.noConfusion hrun
    | put =>
      rw [runVerb_put] at hrun
      rcases hv : hs.put with _ | h
      · show dispatchPut api baseUrl url data db = _
        rw [dispatchPut_eq, hlk]
        show ((match hs.put with
          | none => (Except.error (NotFound url), db)
          | some h =>
            match h data (normalize (baseUrl ++ url)).id db with
            | (HRes.thrown e, db1) => (Except.error e, db1)
            | (HRes.ok w, db1) => (Except.ok { status := 200, data := w }, db1))
          : Except JsErr Response × Db) = _
        rw [hv]
      · rw [hv] at hrun
        exact Option.noConfusion hrun
    | delete =>
      rw [runVerb_delete] at hrun
      rcases hv : hs.delete with _ | h
      · show dispatchDelete api baseUrl url db = _
        rw [dispatchDelete_eq, hlk]
        show ((match hs.delete with
          | none => (Except.error (NotFound url), db)
          | some h =>
            match h (normalize (baseUrl ++ url)).id db with
            | (HRes.thrown e, db1) => (Except.error e, db1)
            | (HRes.ok w, db1) => (Except.ok { status := 204, data := w }, db1))
          : Except JsErr Response × Db) = _
        rw [hv]
      · rw [hv] at hrun
        exact Option.noConfusion hrun
  · intro hs e db1 hlk hrun
    cases v with
    | get =>
      rw [runVerb_get] at hrun
      rcases hv : hs.get with _ | h
      · rw [hv] at hrun
        exact Option.noConfusion hrun
      · rw [hv] at hrun
        have hh : h (normalize (baseUrl ++ url)).id db = (HRes.thrown e, db1) :=
          Option.some.inj hrun
        show dispatchGet api baseUrl url db = _
        rw [dispatchGet_eq, hlk]
        show ((match hs.get with
          | none => (Except.error (NotFound url), db)
          | some h =>
            match h (normalize (baseUrl ++ url)).id db with
            | (HRes.thrown e, db1) => (Except.error e, db1)
            | (HRes.ok none, db1) =>
              (Except.error (Missing (normalize (baseUrl ++ url)).id), db1)
            | (HRes.ok (some w), db1) =>
              (Except.ok { status := 200, data := some w }, db1))
          : Except JsErr Response × Db) = _
        rw [hv]
        show ((match h (normalize (baseUrl ++ url)).id db with
          | (HRes.thrown e, db1) => (Except.error e, db1)
          | (HRes.ok none, db1) =>
            (Except.error (Missing (normalize (baseUrl ++ url)).id), db1)
          | (HRes.ok (some w), db1) =>
            (Except.ok { status := 200, data := some w }, db1))
          : Except JsErr Response × Db) = _
        rw [hh]
    | post =>
      rw [runVerb_post] at hrun
      rcases hv : hs.post with _ | h
      · rw [hv] at hrun
        exact Option.noConfusion hrun
      · rw [hv] at hrun
        have hh : h data (normalize (baseUrl ++ url)).id db = (HRes.thrown e, db1) :=
          Option.some.inj hrun
        show dispatchPost api baseUrl url data db = _
        rw [dispatchPost_eq, hlk]
        show ((match hs.post with
          | none => (Except.error (NotFound url), db)
          | some h =>
            match h data (normalize (baseUrl ++ url)).id db with
            | (HRes.thrown e, db1) => (Except.error e, db1)
            | (HRes.ok w, db1) => (Except.ok { status := 201, data := w }, db1))
          : Except JsErr Response × Db) = _
        rw [hv]
        show ((match h data (normalize (baseUrl ++ url)).id db with
          | (HRes.thrown e, db1) => (Except.error e, db1)
          | (HRes.ok w, db1) => (Except.ok { status := 201, data := w }, db1))
          : Except JsErr Response × Db) = _
        rw [hh]
    | put =>
      rw [runVerb_put] at hrun
      rcases hv : hs.put with _ | h
      · rw [hv] at hrun
        exact Option.noConfusion hrun
      · rw [hv] at hrun
        have hh : h data (normalize (baseUrl ++ url)).id db = (HRes.thrown e, db1) :=
          Option.some.inj hrun
        show dispatchPut api baseUrl url data db = _
        rw [dispatchPut_eq, hlk]
        show ((match hs.put with
          | none => (Except.error (NotFound url), db)
          | some h =>
            match h data (normalize (baseUrl ++ url)).id db with
            | (HRes.thrown e, db1) => (Except.error e, db1)
            | (HRes.ok w, db1) => (Except.ok { status := 200, data := w }, db1))
          : Except JsErr Response × Db) = _
        rw [hv]
        show ((match h data (normalize (baseUrl ++ url)).id db with
          | (HRes.thrown e, db1) => (Except.error e, db1)
          | (HRes.ok w, db1) => (Except.ok { status := 200, data := w }, db1))
          : Except JsErr Response × Db) = _
        rw [hh]
    | delete =>
      rw [runVerb_delete] at hrun
      rcases hv : hs.delete with _ | h
      · rw [hv] at hrun
        exact Option.noConfusion hrun
      · rw [hv] at hrun
        have hh : h (normalize (baseUrl ++ url)).id db = (HRes.thrown e, db1) :=
          Option.some.inj hrun
        show dispatchDelete api baseUrl url db = _
        rw [dispatchDelete_eq, hlk]
        show ((match hs.delete with
          | none => (Except.error (NotFound url), db)
          | some h =>
            match h (normalize (baseUrl ++ url)).id db with
            | (HRes.thrown e, db1) => (Except.error e, db1)
            | (HRes.ok w, db1) => (Except.ok { status := 204, data := w }, db1))
          : Except JsErr Response × Db) = _
        rw [hv]
        show ((match h (normalize (baseUrl ++ url)).id db with
          | (HRes.thrown e, db1) => (Except.error e, db1)
          | (HRes.ok w, db1) => (Except.ok { status := 204, data := w }, db1))
          : Except JsErr Response × Db) = _
        rw [hh]

def c6Throw : HandlerSet :=
  { get := some (fun _ db => (HRes.thrown (Forbidden none), db)) }

def c6Hs : HandlerSet :=
  { get := some (fun _ db => (HRes.ok none, db)) }

def c6Api : Api := [("/null", none), ("/g", some c6Hs), ("/f", some c6Throw)]

/-- Witness for C6: an unregistered url, a null endpoint, a verb with no
handler, and a handler throwing Forbidden all reject with the expected
envelopes. -/
theorem c6_error_envelopes_witness :
    dispatch Verb.get c6Api "" "/nope" (JData.obj []) []
      = (Except.error (NotFound "/nope"), [])
    ∧ dispatch Verb.get c6Api "" "/null" (JData.obj []) []
      = (Except.error (NotFound "/null"), [])
    ∧ dispatch Verb.put c6Api "" "/g" (JData.obj []) []
      = (Except.error (NotFound "/g"), [])
    ∧ dispatch Verb.get c6Api "" "/f" (JData.obj []) []
      = (Except.error (Forbidden none), []) := by
  refine ⟨?_, ?_, ?_, ?_⟩
  · exact (c6_error_envelopes Verb.get c6Api "" "/nope" (JData.obj []) []).1 rfl
  · exact (c6_error_envelopes Verb.get c6Api "" "/null" (JData.obj []) []).2.1 rfl
  · exact (c6_error_envelopes Verb.put c6Api "" "/g" (JData.obj []) []).2.2.1
      c6Hs rfl rfl
  · exact (c6_error_envelopes Verb.get c6Api "" "/f" (JData.obj []) []).2.2.2
      c6Throw (Forbidden none) [] rfl rfl

end JestAxios
